import Mathlib

/-!
Verification development for the JourneyChart visual (src/src/visual.ts).

The embedding models the data-shaping core of the visual: `calAggregate`,
`getDistinctElements`, `calNodesNLinks`, `converter`, `addSelection` and the
error-message branch of `update`.  JavaScript semantics are made explicit:

* a thrown `TypeError` (for example `null.toString()`) is `Except.error ()`;
* a non-finite double (NaN, Infinity) is `none` in an `Option`;
* measure numbers are carried as `Int` (every value the claims exercise is a
  whole number; sums and comparisons are exact);
* percentages, which the source obtains by `/`, live in `Option ℚ` where
  `none` is a non-finite result.
-/

namespace JourneyChart

/-! ## JavaScript value model -/

/-- A finite JS number used in sums (`none` = NaN). -/
abbrev JNum := Option Int

/-- JS addition on possibly-NaN numbers: NaN absorbs. -/
def jadd : JNum → JNum → JNum
  | some a, some b => some (a + b)
  | _, _ => none

/-- JS division as used for `percentage`: division by zero yields a
non-finite double (Infinity or NaN), modelled as `none`; NaN operands
propagate. -/
def jdivQ : JNum → JNum → Option ℚ
  | some a, some b => if b = 0 then none else some ((a : ℚ) / (b : ℚ))
  | _, _ => none

/-- A categorical cell: a primitive value carried by its `toString` image
(the only way the source inspects it), a `null` cell, or `undefined` from an
out-of-range array read. -/
inductive CV where
  | str (s : String)
  | null
  | undef
deriving DecidableEq, Repr

/-- JS `v.toString()` on a categorical cell: throws a TypeError on null and
undefined. -/
def cvToStringE : CV → Except Unit String
  | .str s => .ok s
  | .null => .error ()
  | .undef => .error ()

/-- JS string concatenation `s + v`: null and undefined coerce to text
instead of throwing. -/
def cvConcat (s : String) (v : CV) : String :=
  match v with
  | .str t => s ++ t
  | .null => s ++ "null"
  | .undef => s ++ "undefined"

/-- A measure cell: `null`, a number, a non-numeric primitive whose text
does not parse as a number, or `undefined` from an out-of-range read. -/
inductive MV where
  | null
  | num (n : Int)
  | nonnum (s : String)
  | undef
deriving DecidableEq, Repr

/-- JS `parseFloat(v.toString())`: throws a TypeError on null and undefined,
returns the number for numeric cells and NaN for non-numeric text. -/
def mvParseFloatE : MV → Except Unit JNum
  | .null => .error ()
  | .num n => .ok (some n)
  | .nonnum _ => .ok none
  | .undef => .error ()

/-- JS unary plus `+v`: null coerces to 0, non-numeric text and undefined to
NaN. -/
def mvPlus : MV → JNum
  | .null => some 0
  | .num n => some n
  | .nonnum _ => none
  | .undef => none

/-- JS `v.toString()` on a measure cell (throws on null and undefined). -/
def mvToStringE : MV → Except Unit String
  | .null => .error ()
  | .num n => .ok (toString n)
  | .nonnum s => .ok s
  | .undef => .error ()

/-- A value stored in `numberOfLeads` or a link weight: the source mixes
numbers, NaN, the string literal "0" and raw nulls in those fields. -/
inductive JVal where
  | num (n : Int)
  | nan
  | str (s : String)
  | null
deriving DecidableEq, Repr

def JVal.ofJNum : JNum → JVal
  | some n => .num n
  | none => .nan

def JVal.toJNum : JVal → JNum
  | .num n => some n
  | _ => none

@[simp] theorem toJNum_ofJNum (x : JNum) : (JVal.ofJNum x).toJNum = x := by
  cases x <;> rfl

/-- The raw measure cell as it lands in a node field when pushed without
conversion (`undef` cannot reach a field: unary plus makes it NaN first and
the source then substitutes the string "0"). -/
def MV.toJVal : MV → JVal
  | .null => .null
  | .num n => .num n
  | .nonnum s => .str s
  | .undef => .str "undefined"

/-- Selection payloads: `tok i` is the opaque per-row selection id the host
builds for row `i`; `undef` an out-of-range array read; JS arrays are
encoded as `anil`/`acons` chains. -/
inductive SelT where
  | tok (i : Nat)
  | undef
  | anil
  | acons (head tail : SelT)
deriving DecidableEq, Repr

/-- Array value from a list. -/
def selArr : List SelT → SelT := fun l => l.foldr SelT.acons SelT.anil

/-- JS `array.push(t)` (append at the end); the source never pushes onto a
non-array selection value, which is left unchanged here. -/
def SelT.push (a : SelT) (t : SelT) : SelT :=
  match a with
  | anil => acons t anil
  | acons h tl => acons h (tl.push t)
  | x => x

/-- JS array read `selection[j]` (undefined when out of range). -/
def selGet (sel : List SelT) (j : Nat) : SelT := sel.getD j SelT.undef

/-! ## Distinct-value extraction (`getDistinctElements`) -/

/-- JS `Array.prototype.indexOf` with strict equality (first index of `v`;
returns the length when absent, which the source never relies on). -/
def jsIndexOf (l : List CV) (v : CV) : Nat :=
  match l with
  | [] => 0
  | x :: xs => if x = v then 0 else jsIndexOf xs v + 1

/-- Source `getDistinctElements(val, i, self)`: keep the element at position
`i` iff its first occurrence in `self` is at `i`. -/
def getDistinctElements (val : CV) (i : Nat) (self : List CV) : Bool :=
  jsIndexOf self val == i

/-- JS `self.filter(getDistinctElements)`, made explicit with the running
index. -/
def filterDistinctAux (self : List CV) : Nat → List CV → List CV
  | _, [] => []
  | i, v :: rest =>
      if getDistinctElements v i self then v :: filterDistinctAux self (i+1) rest
      else filterDistinctAux self (i+1) rest

/-- The distinct-value extraction of the source. -/
def filterDistinct (self : List CV) : List CV := filterDistinctAux self 0 self

/-- Specification-side deduplication: keep exactly the first occurrence of
each value, in encounter order. -/
def fsdAux (seen : List CV) : List CV → List CV
  | [] => []
  | x :: xs => if x ∈ seen then fsdAux seen xs else x :: fsdAux (x :: seen) xs

/-- First-seen-order deduplication (the behaviour §4.1 of the spec asks
for). -/
def firstSeenDedup (l : List CV) : List CV := fsdAux [] l

theorem jsIndexOf_append_of_mem {v : CV} :
    ∀ pre : List CV, v ∈ pre → ∀ suf, jsIndexOf (pre ++ suf) v < pre.length := by
  intro pre
  induction pre with
  | nil => intro h; cases h
  | cons x xs ih =>
    intro h suf
    simp only [List.cons_append, jsIndexOf, List.length_cons]
    by_cases hx : x = v
    · simp [hx]
    · rcases List.mem_cons.1 h with h2 | h2
      · exact absurd h2.symm hx
      · simpa [hx] using ih h2 suf

theorem jsIndexOf_append_of_not_mem {v : CV} :
    ∀ pre : List CV, v ∉ pre → ∀ rest, jsIndexOf (pre ++ v :: rest) v = pre.length := by
  intro pre
  induction pre with
  | nil => intro _ rest; simp [jsIndexOf]
  | cons x xs ih =>
    intro h rest
    have hx : x ≠ v := fun hxv => h (by simp [hxv])
    have hxs : v ∉ xs := fun hv => h (by simp [hv])
    simp [jsIndexOf, hx, ih hxs rest]

/-- `fsdAux` only consults membership of its `seen` accumulator. -/
theorem fsdAux_congr {s1 s2 : List CV} (h : ∀ a, a ∈ s1 ↔ a ∈ s2) :
    ∀ l, fsdAux s1 l = fsdAux s2 l := by
  intro l
  induction l generalizing s1 s2 with
  | nil => rfl
  | cons x xs ih =>
    simp only [fsdAux]
    by_cases hx : x ∈ s1
    · rw [if_pos hx, if_pos ((h x).1 hx)]
      exact ih h
    · rw [if_neg hx, if_neg (fun hx2 => hx ((h x).2 hx2))]
      refine congrArg (x :: ·) (ih ?_)
      intro a; simp only [List.mem_cons]
      exact or_congr Iff.rfl (h a)

theorem filterDistinctAux_eq_fsdAux :
    ∀ (suf pre : List CV),
      filterDistinctAux (pre ++ suf) pre.length suf = fsdAux pre suf := by
  intro suf
  induction suf with
  | nil => intro pre; rfl
  | cons v rest ih =>
    intro pre
    simp only [filterDistinctAux, fsdAux, getDistinctElements]
    have hre := ih (pre ++ [v])
    have hlen : (pre ++ [v]).length = pre.length + 1 := by simp
    rw [hlen, List.append_assoc, List.singleton_append] at hre
    by_cases hv : v ∈ pre
    · have hlt := jsIndexOf_append_of_mem pre hv (v :: rest)
      have hne : (jsIndexOf (pre ++ v :: rest) v == pre.length) = false := by
        refine beq_eq_false_iff_ne.2 ?_
        omega
      simp only [hne, Bool.false_eq_true, if_false, if_pos hv]
      rw [hre]
      refine fsdAux_congr (fun a => ?_) rest
      simp only [List.mem_append, List.mem_singleton]
      constructor
      · rintro (h | rfl)
        · exact h
        · exact hv
      · exact Or.inl
    · have heq := jsIndexOf_append_of_not_mem pre hv rest
      have htr : (jsIndexOf (pre ++ v :: rest) v == pre.length) = true := by
        simp [heq]
      simp only [htr, if_true, if_neg hv]
      refine congrArg (v :: ·) ?_
      rw [hre]
      refine fsdAux_congr (fun a => ?_) rest
      simp only [List.mem_append, List.mem_singleton, List.mem_cons]
      tauto

/-- The JS `filter(getDistinctElements)` idiom computes first-seen-order
deduplication. -/
theorem filterDistinct_eq_firstSeenDedup (l : List CV) :
    filterDistinct l = firstSeenDedup l :=
  filterDistinctAux_eq_fsdAux l []

theorem mem_fsdAux {l : List CV} {v : CV} :
    ∀ {seen}, v ∈ fsdAux seen l ↔ (v ∈ l ∧ v ∉ seen) := by
  induction l with
  | nil => intro seen; simp [fsdAux]
  | cons x xs ih =>
    intro seen
    simp only [fsdAux]
    by_cases hx : x ∈ seen
    · rw [if_pos hx]
      rw [ih]
      constructor
      · rintro ⟨h1, h2⟩; exact ⟨List.mem_cons_of_mem _ h1, h2⟩
      · rintro ⟨h1, h2⟩
        rcases List.mem_cons.1 h1 with rfl | h1
        · exact absurd hx h2
        · exact ⟨h1, h2⟩
    · rw [if_neg hx]
      simp only [List.mem_cons]
      constructor
      · rintro (rfl | h)
        · exact ⟨Or.inl rfl, hx⟩
        · have := ih.1 h
          rcases this with ⟨h1, h2⟩
          simp only [List.mem_cons, not_or] at h2
          exact ⟨Or.inr h1, h2.2⟩
      · rintro ⟨rfl | h1, h2⟩
        · exact Or.inl rfl
        · by_cases hvx : v = x
          · exact Or.inl hvx
          · exact Or.inr (ih.2 ⟨h1, by simp [hvx, h2]⟩)

theorem mem_firstSeenDedup {l : List CV} {v : CV} :
    v ∈ firstSeenDedup l ↔ v ∈ l := by
  unfold firstSeenDedup
  rw [mem_fsdAux]
  simp

theorem mem_filterDistinct {l : List CV} {v : CV} :
    v ∈ filterDistinct l ↔ v ∈ l := by
  rw [filterDistinct_eq_firstSeenDedup, mem_firstSeenDedup]

theorem fsdAux_length_le (l : List CV) : ∀ seen, (fsdAux seen l).length ≤ l.length := by
  induction l with
  | nil => intro seen; simp [fsdAux]
  | cons x xs ih =>
    intro seen
    simp only [fsdAux]
    by_cases hx : x ∈ seen
    · rw [if_pos hx]
      exact Nat.le_succ_of_le (ih seen)
    · rw [if_neg hx]
      simpa using Nat.succ_le_succ (ih (x :: seen))

theorem firstSeenDedup_length_le (l : List CV) :
    (firstSeenDedup l).length ≤ l.length := fsdAux_length_le l []

/-! ## The `'***'` key encoding -/

/-- The delimiter characters of the key encoding. -/
def starsSep : List Char := ['*', '*', '*']

/-- JS `String.prototype.split('***')` over the character list.  `fuel` is
always supplied as at least the length of the scanned text, which keeps the
final equation unreachable; it only exists to make the recursion
structural. -/
def splitStarsGo : Nat → List Char → List Char → List (List Char)
  | _, acc, [] => [acc.reverse]
  | fuel+1, acc, c :: cs =>
      if starsSep.isPrefixOf (c :: cs) then
        acc.reverse :: splitStarsGo fuel [] (cs.drop 2)
      else
        splitStarsGo fuel (c :: acc) cs
  | 0, acc, s => [acc.reverse ++ s]

/-- JS `combinedID.split('***')`. -/
def jsSplitStars (s : String) : List String :=
  (splitStarsGo s.data.length [] s.data).map fun l => String.mk l

/-- Key components joined with the delimiter, the way the source accumulates
`combinedID` by concatenation. -/
def joinStars : List String → String
  | [] => ""
  | [c] => c
  | c :: rest => c ++ "***" ++ joinStars rest

/-- A text that cannot interfere with the delimiter encoding. -/
def noStar (s : String) : Prop := '*' ∉ s.data

instance (s : String) : Decidable (noStar s) := by
  unfold noStar; infer_instance

theorem splitStarsGo_ne_nil : ∀ fuel acc s, splitStarsGo fuel acc s ≠ [] := by
  intro fuel
  induction fuel with
  | zero => intro acc s; cases s <;> simp [splitStarsGo]
  | succ f ih =>
    intro acc s
    cases s with
    | nil => simp [splitStarsGo]
    | cons c cs =>
      simp only [splitStarsGo]
      by_cases h : starsSep.isPrefixOf (c :: cs)
      · simp [h]
      · simpa [h] using ih (c :: acc) cs

theorem jsSplitStars_ne_nil (s : String) : jsSplitStars s ≠ [] := by
  unfold jsSplitStars
  intro h
  exact splitStarsGo_ne_nil _ _ _ (List.map_eq_nil_iff.1 h)

/-- Fuel irrelevance: any fuel at least the text length gives the same
result. -/
theorem splitStarsGo_fuel :
    ∀ fuel1 fuel2 acc (s : List Char), s.length ≤ fuel1 → s.length ≤ fuel2 →
      splitStarsGo fuel1 acc s = splitStarsGo fuel2 acc s := by
  intro fuel1
  induction fuel1 with
  | zero =>
    intro fuel2 acc s h1 _
    have : s = [] := List.length_eq_zero.1 (Nat.le_zero.1 h1)
    subst this
    cases fuel2 <;> rfl
  | succ f ih =>
    intro fuel2 acc s h1 h2
    cases s with
    | nil => cases fuel2 <;> rfl
    | cons c cs =>
      cases fuel2 with
      | zero => simp at h2
      | succ f2 =>
        simp only [splitStarsGo]
        by_cases h : starsSep.isPrefixOf (c :: cs)
        · rw [if_pos h, if_pos h]
          have hlen : (cs.drop 2).length ≤ f := by
            simp only [List.length_cons] at h1
            have := List.length_drop 2 cs
            omega
          have hlen2 : (cs.drop 2).length ≤ f2 := by
            simp only [List.length_cons] at h2
            have := List.length_drop 2 cs
            omega
          exact congrArg _ (ih f2 [] (cs.drop 2) hlen hlen2)
        · rw [if_neg h, if_neg h]
          have hlen : cs.length ≤ f := by simp only [List.length_cons] at h1; omega
          have hlen2 : cs.length ≤ f2 := by simp only [List.length_cons] at h2; omega
          exact ih f2 (c :: acc) cs hlen hlen2

theorem starsSep_not_isPrefixOf {c : Char} (hc : c ≠ '*') (cs : List Char) :
    starsSep.isPrefixOf (c :: cs) = false := by
  simp only [starsSep, List.isPrefixOf, Bool.and_eq_false_iff]
  left
  simpa using fun h => hc h.symm

/-- Scanning star-free text never cuts. -/
theorem splitStarsGo_no_star :
    ∀ (l : List Char) acc fuel, '*' ∉ l → l.length ≤ fuel →
      splitStarsGo fuel acc l = [acc.reverse ++ l] := by
  intro l
  induction l with
  | nil =>
    intro acc fuel _ _
    cases fuel <;> simp [splitStarsGo]
  | cons c cs ih =>
    intro acc fuel hstar hlen
    cases fuel with
    | zero => simp at hlen
    | succ f =>
      have hc : c ≠ '*' := fun h => hstar (by simp [h])
      have hcs : '*' ∉ cs := fun h => hstar (by simp [h])
      simp only [splitStarsGo, starsSep_not_isPrefixOf hc, Bool.false_eq_true,
        if_false]
      have hl : cs.length ≤ f := by simp only [List.length_cons] at hlen; omega
      rw [ih (c :: acc) f hcs hl]
      simp

/-- Scanning a star-free component followed by the delimiter cuts exactly at
the delimiter. -/
theorem splitStarsGo_cut :
    ∀ (l : List Char) (t : List Char) acc fuel, '*' ∉ l →
      (l ++ starsSep ++ t).length ≤ fuel →
      splitStarsGo fuel acc (l ++ starsSep ++ t) =
        (acc.reverse ++ l) :: splitStarsGo t.length [] t := by
  intro l
  induction l with
  | nil =>
    intro t acc fuel _ hlen
    have hs : ([] : List Char) ++ starsSep ++ t = '*' :: '*' :: '*' :: t := by
      simp [starsSep]
    rw [hs] at hlen ⊢
    cases fuel with
    | zero => simp at hlen
    | succ f =>
      have hpre : starsSep.isPrefixOf ('*' :: '*' :: '*' :: t) = true := by
        simp [starsSep, List.isPrefixOf]
      simp only [splitStarsGo, hpre, if_true]
      simp only [List.drop_succ_cons, List.drop_zero, List.append_nil]
      refine congrArg _ ?_
      refine splitStarsGo_fuel f t.length [] t ?_ le_rfl
      simp only [List.length_cons] at hlen
      omega
  | cons c cs ih =>
    intro t acc fuel hstar hlen
    cases fuel with
    | zero =>
      exfalso
      simp only [List.length_append, List.length_cons] at hlen
      omega
    | succ f =>
      have hc : c ≠ '*' := fun h => hstar (by simp [h])
      have hcs : '*' ∉ cs := fun h => hstar (by simp [h])
      have hgoal : (c :: cs) ++ starsSep ++ t = c :: (cs ++ starsSep ++ t) := by
        simp
      rw [hgoal] at hlen ⊢
      simp only [splitStarsGo, starsSep_not_isPrefixOf hc, Bool.false_eq_true,
        if_false]
      have hl : (cs ++ starsSep ++ t).length ≤ f := by
        simp only [List.length_cons] at hlen; omega
      rw [ih t (c :: acc) f hcs hl]
      simp

/-- Round trip: joining star-free components and splitting again recovers
the components. -/
theorem jsSplitStars_joinStars :
    ∀ (comps : List String), comps ≠ [] → (∀ c ∈ comps, noStar c) →
      jsSplitStars (joinStars comps) = comps := by
  intro comps
  induction comps with
  | nil => intro h; exact absurd rfl h
  | cons c rest ih =>
    intro _ hstar
    cases rest with
    | nil =>
      unfold jsSplitStars
      rw [show joinStars [c] = c from rfl]
      rw [splitStarsGo_no_star c.data [] c.data.length
        (hstar c (by simp)) le_rfl]
      simp
    | cons d rest2 =>
      have hj : joinStars (c :: d :: rest2) = c ++ "***" ++ joinStars (d :: rest2) := rfl
      unfold jsSplitStars
      rw [hj]
      have hdata : (c ++ "***" ++ joinStars (d :: rest2)).data
          = c.data ++ starsSep ++ (joinStars (d :: rest2)).data := by
        simp [String.data_append, starsSep]
      rw [hdata]
      rw [splitStarsGo_cut c.data (joinStars (d :: rest2)).data []
        _ (hstar c (by simp)) le_rfl]
      simp only [List.map_cons, List.reverse_nil, List.nil_append]
      have ihr := ih (by simp) (fun x hx => hstar x (List.mem_cons_of_mem _ hx))
      unfold jsSplitStars at ihr
      rw [ihr]

@[simp] theorem joinStars_singleton (c : String) : joinStars [c] = c := rfl

theorem joinStars_append_last (comps : List String) (e : String)
    (h : comps ≠ []) :
    joinStars (comps ++ [e]) = joinStars comps ++ "***" ++ e := by
  induction comps with
  | nil => exact absurd rfl h
  | cons c rest ih =>
    cases rest with
    | nil => rfl
    | cons d r2 =>
      have := ih (by simp)
      show joinStars (c :: (d :: r2 ++ [e])) = _
      have h2 : joinStars (c :: (d :: r2 ++ [e]))
          = c ++ "***" ++ joinStars (d :: r2 ++ [e]) := by
        cases r2 <;> rfl
      rw [h2, this]
      have h3 : joinStars (c :: d :: r2) = c ++ "***" ++ joinStars (d :: r2) := rfl
      rw [h3]
      simp [String.append_assoc]

/-! ## Data model of the categorical data view -/

/-- A categorical column (`DataViewCategoryColumn`): display name of its
source plus the per-row values. -/
structure CatCol where
  displayName : String
  values : List CV
deriving DecidableEq, Repr

instance : Inhabited CatCol := ⟨⟨"", []⟩⟩

/-- A measure column (`DataViewValueColumn`): display name, whether its role
is `root` (root-override) rather than a flow-stage measure, and the per-row
values. -/
structure MeasCol where
  displayName : String
  isRoot : Bool
  values : List MV
deriving DecidableEq, Repr

instance : Inhabited MeasCol := ⟨⟨"", false, []⟩⟩

/-- `dataView.categorical`: either bag may be absent (undefined). -/
structure Categorical where
  categories : Option (List CatCol)
  values : Option (List MeasCol)
deriving DecidableEq, Repr

/-- The categorical data once the converter guard has established both bags
are present. -/
structure CatData where
  categories : List CatCol
  values : List MeasCol
deriving DecidableEq, Repr

/-- `this.dataViews.categorical.categories[iLevel].values[iRow].toString()`:
an out-of-range column read yields undefined whose `.values` throws; an
out-of-range row read yields undefined, and `toString` throws on undefined
and null alike. -/
def getCatCellE (cd : CatData) (iLevel iRow : Nat) : Except Unit String :=
  match cd.categories[iLevel]? with
  | none => .error ()
  | some col => cvToStringE (col.values.getD iRow CV.undef)

/-- `parseFloat(this.dataViews.categorical.values[0].values[iRow].toString())`;
out-of-range reads throw at the `toString`, exactly like a null cell, so the
default `MV.null` models both. -/
def getMeasure0E (cd : CatData) (iRow : Nat) : Except Unit JNum :=
  match cd.values[0]? with
  | none => .error ()
  | some col => mvParseFloatE (col.values.getD iRow MV.undef)

@[simp] theorem okBind {α β : Type} (a : α) (f : α → Except Unit β) :
    (Except.ok a >>= f) = f a := rfl

@[simp] theorem errBind {α β : Type} (f : α → Except Unit β) :
    ((Except.error () : Except Unit α) >>= f) = .error () := rfl

/-! ## `calAggregate` -/

/-- Inner loop of `calAggregate` for one row: walk the levels in order,
counting matches; the moment the counter reaches the key length (which can
only happen at the last level, with every level matched) the parsed primary
measure is added to the sum. -/
def calAggRow (cd : CatData) (hier : List String) (iRow : Nat) :
    List Nat → Nat → JNum → Except Unit JNum
  | [], _, sum => .ok sum
  | iLevel :: rest, counter, sum => do
    let s ← getCatCellE cd iLevel iRow
    if s = hier.getD iLevel "" then
      if counter + 1 = hier.length then do
        let m ← getMeasure0E cd iRow
        calAggRow cd hier iRow rest (counter + 1) (jadd sum m)
      else
        calAggRow cd hier iRow rest (counter + 1) sum
    else
      calAggRow cd hier iRow rest counter sum

/-- Row loop of `calAggregate` (the `combinedID !== 'none'` branch); the
level bound `level` of the source is `hier.length - 1`, so the level list is
`List.range hier.length`. -/
def calAggRows (cd : CatData) (hier : List String) :
    List Nat → JNum → Except Unit JNum
  | [], sum => .ok sum
  | iRow :: rows, sum => do
    let sum2 ← calAggRow cd hier iRow (List.range hier.length) 0 sum
    calAggRows cd hier rows sum2

/-- The `combinedID === 'none'` branch: sum the primary measure over every
row. -/
def calAggAll (cd : CatData) : List Nat → JNum → Except Unit JNum
  | [], sum => .ok sum
  | iRow :: rows, sum => do
    let m ← getMeasure0E cd iRow
    calAggAll cd rows (jadd sum m)

/-- Source `calAggregate(combinedID, totalValues)`. -/
def calAggregate (cd : CatData) (combinedID : String) (totalValues : Nat) :
    Except Unit JNum :=
  if combinedID ≠ "none" then
    calAggRows cd (jsSplitStars combinedID) (List.range totalValues) (some 0)
  else
    calAggAll cd (List.range totalValues) (some 0)

/-! ## Specification-side aggregation -/

/-- Total read of a categorical cell, for specification statements; it
agrees with the throwing read exactly when the cell is a plain string. -/
def catStrD (cd : CatData) (iLevel iRow : Nat) : String :=
  match (cd.categories.getD iLevel default).values.getD iRow CV.undef with
  | CV.str s => s
  | _ => ""

/-- Total parse of the primary measure cell for specification statements. -/
def parseM0D (cd : CatData) (iRow : Nat) : JNum :=
  match (cd.values.getD 0 default).values.getD iRow MV.undef with
  | MV.num n => some n
  | _ => none

/-- Row `iRow` matches the hierarchical key `comps` component-wise at every
level `0 .. comps.length - 1`. -/
def rowMatches (cd : CatData) (comps : List String) (iRow : Nat) : Bool :=
  (List.range comps.length).all fun lvl => catStrD cd lvl iRow == comps.getD lvl ""

/-- The sum of the primary measure over exactly the rows matching `comps`. -/
def specAgg (cd : CatData) (comps : List String) (rows : Nat) : JNum :=
  (List.range rows).foldl
    (fun s iRow => if rowMatches cd comps iRow then jadd s (parseM0D cd iRow) else s)
    (some 0)

/-- The sum of the primary measure over all rows. -/
def specAggAll (cd : CatData) (rows : Nat) : JNum :=
  (List.range rows).foldl (fun s iRow => jadd s (parseM0D cd iRow)) (some 0)

/-- All categorical cells up to a level bound and row bound read as plain
strings. -/
def CellsOK (cd : CatData) (levels rows : Nat) : Prop :=
  ∀ iLevel, iLevel < levels → ∀ iRow, iRow < rows →
    getCatCellE cd iLevel iRow = .ok (catStrD cd iLevel iRow)

/-- The primary measure column parses without throwing on every row. -/
def Meas0OK (cd : CatData) (rows : Nat) : Prop :=
  ∀ iRow, iRow < rows → getMeasure0E cd iRow = .ok (parseM0D cd iRow)

@[simp] theorem jadd_none (x : JNum) : jadd x none = none := by cases x <;> rfl

@[simp] theorem none_jadd (x : JNum) : jadd none x = none := rfl

theorem calAggRow_no_trigger (cd : CatData) (hier : List String) (iRow : Nat) :
    ∀ (ls : List Nat) (counter : Nat) (sum : JNum),
      (∀ l ∈ ls, getCatCellE cd l iRow = .ok (catStrD cd l iRow)) →
      counter + ls.length < hier.length →
      calAggRow cd hier iRow ls counter sum = .ok sum := by
  intro ls
  induction ls with
  | nil => intro counter sum _ _; rfl
  | cons l ls2 ih =>
    intro counter sum hcells hlt
    simp only [calAggRow, hcells l (by simp), okBind]
    by_cases hm : catStrD cd l iRow = hier.getD l ""
    · rw [if_pos hm]
      have hne : ¬ (counter + 1 = hier.length) := by
        simp only [List.length_cons] at hlt; omega
      rw [if_neg hne]
      refine ih (counter + 1) sum (fun x hx => hcells x (by simp [hx])) ?_
      simp only [List.length_cons] at hlt; omega
    · rw [if_neg hm]
      refine ih counter sum (fun x hx => hcells x (by simp [hx])) ?_
      simp only [List.length_cons] at hlt; omega

theorem calAggRow_last (cd : CatData) (hier : List String) (iRow : Nat) :
    ∀ (ls : List Nat) (counter : Nat) (sum : JNum),
      ls ≠ [] →
      (∀ l ∈ ls, getCatCellE cd l iRow = .ok (catStrD cd l iRow)) →
      getMeasure0E cd iRow = .ok (parseM0D cd iRow) →
      counter + ls.length = hier.length →
      calAggRow cd hier iRow ls counter sum =
        .ok (if ls.all (fun l => catStrD cd l iRow == hier.getD l "")
             then jadd sum (parseM0D cd iRow) else sum) := by
  intro ls
  induction ls with
  | nil => intro _ _ h; exact absurd rfl h
  | cons l ls2 ih =>
    intro counter sum _ hcells hmeas hlen
    simp only [calAggRow, hcells l (by simp), okBind]
    by_cases hm : catStrD cd l iRow = hier.getD l ""
    · rw [if_pos hm]
      cases ls2 with
      | nil =>
        have htr : counter + 1 = hier.length := by
          simp only [List.length_cons, List.length_nil] at hlen; omega
        rw [if_pos htr]
        simp only [hmeas, okBind, calAggRow]
        simp [List.all_cons, hm]
      | cons l2 ls3 =>
        have hne : ¬ (counter + 1 = hier.length) := by
          simp only [List.length_cons] at hlen; omega
        rw [if_neg hne]
        have := ih (counter + 1) sum (by simp)
          (fun x hx => hcells x (by simp [hx])) hmeas
          (by simp only [List.length_cons] at hlen ⊢; omega)
        rw [this]
        simp [List.all_cons, hm]
    · rw [if_neg hm]
      have habs : ¬ ((l :: ls2).all fun x => catStrD cd x iRow == hier.getD x "") := by
        simp only [List.all_cons, Bool.and_eq_true, beq_iff_eq]
        intro h; exact hm h.1
      rw [calAggRow_no_trigger cd hier iRow ls2 counter sum
        (fun x hx => hcells x (by simp [hx]))
        (by simp only [List.length_cons] at hlen; omega)]
      simp only [habs, if_false, Bool.false_eq_true]

theorem calAggRow_range (cd : CatData) (hier : List String) (iRow : Nat)
    (hne : hier ≠ [])
    (hcells : ∀ l, l < hier.length → getCatCellE cd l iRow = .ok (catStrD cd l iRow))
    (hmeas : getMeasure0E cd iRow = .ok (parseM0D cd iRow)) (sum : JNum) :
    calAggRow cd hier iRow (List.range hier.length) 0 sum =
      .ok (if rowMatches cd hier iRow then jadd sum (parseM0D cd iRow) else sum) := by
  have h1 : (List.range hier.length) ≠ [] := by
    intro h
    exact hne (List.length_eq_zero.1 (List.range_eq_nil.1 h))
  have := calAggRow_last cd hier iRow (List.range hier.length) 0 sum h1
    (fun l hl => hcells l (List.mem_range.1 hl)) hmeas (by simp)
  rw [this]
  rfl

theorem calAggRows_ok (cd : CatData) (hier : List String) (hne : hier ≠ []) :
    ∀ (rowsList : List Nat) (sum : JNum),
      (∀ r ∈ rowsList, ∀ l, l < hier.length →
        getCatCellE cd l r = .ok (catStrD cd l r)) →
      (∀ r ∈ rowsList, getMeasure0E cd r = .ok (parseM0D cd r)) →
      calAggRows cd hier rowsList sum =
        .ok (rowsList.foldl
          (fun s iRow => if rowMatches cd hier iRow then jadd s (parseM0D cd iRow) else s)
          sum) := by
  intro rowsList
  induction rowsList with
  | nil => intro sum _ _; rfl
  | cons r rest ih =>
    intro sum hcells hmeas
    simp only [calAggRows]
    rw [calAggRow_range cd hier r hne (fun l hl => hcells r (by simp) l hl)
      (hmeas r (by simp)) sum]
    simp only [okBind, List.foldl_cons]
    exact ih _ (fun x hx l hl => hcells x (by simp [hx]) l hl)
      (fun x hx => hmeas x (by simp [hx]))

theorem calAggAll_ok (cd : CatData) :
    ∀ (rowsList : List Nat) (sum : JNum),
      (∀ r ∈ rowsList, getMeasure0E cd r = .ok (parseM0D cd r)) →
      calAggAll cd rowsList sum =
        .ok (rowsList.foldl (fun s iRow => jadd s (parseM0D cd iRow)) sum) := by
  intro rowsList
  induction rowsList with
  | nil => intro sum _; rfl
  | cons r rest ih =>
    intro sum hmeas
    simp only [calAggAll, hmeas r (by simp), okBind, List.foldl_cons]
    exact ih _ (fun x hx => hmeas x (by simp [hx]))

/-- `calAggregate` on a well-formed joined key computes exactly the
component-wise matching sum of the claim. -/
theorem calAggregate_eq_specAgg (cd : CatData) (comps : List String) (rows : Nat)
    (hcne : comps ≠ []) (hstar : ∀ c ∈ comps, noStar c)
    (hnone : joinStars comps ≠ "none")
    (hC : CellsOK cd comps.length rows) (hM : Meas0OK cd rows) :
    calAggregate cd (joinStars comps) rows = .ok (specAgg cd comps rows) := by
  unfold calAggregate
  rw [if_pos hnone]
  rw [jsSplitStars_joinStars comps hcne hstar]
  exact calAggRows_ok cd comps hcne (List.range rows) (some 0)
    (fun r hr l hl => hC l hl r (List.mem_range.1 hr))
    (fun r hr => hM r (List.mem_range.1 hr))

/-- `calAggregate('none', rows)` sums the primary measure over all rows. -/
theorem calAggregate_none_eq_specAggAll (cd : CatData) (rows : Nat)
    (hM : Meas0OK cd rows) :
    calAggregate cd "none" rows = .ok (specAggAll cd rows) := by
  unfold calAggregate
  rw [if_neg (by simp)]
  exact calAggAll_ok cd (List.range rows) (some 0)
    (fun r hr => hM r (List.mem_range.1 hr))

/-- Once the accumulator went NaN, the matching sum remains NaN. -/
theorem specAgg_fold_none (cd : CatData) (comps : List String) :
    ∀ l : List Nat,
      l.foldl (fun s iRow => if rowMatches cd comps iRow
        then jadd s (parseM0D cd iRow) else s) none = none := by
  intro l
  induction l with
  | nil => rfl
  | cons r rest ih =>
    simp only [List.foldl_cons]
    by_cases h : rowMatches cd comps r
    · simpa [h] using ih
    · simpa [h] using ih

/-- A single matching non-numeric cell makes the whole matching sum NaN. -/
theorem specAgg_absorbs_nan (cd : CatData) (comps : List String) :
    ∀ (l : List Nat) (s : JNum),
      (∃ r ∈ l, rowMatches cd comps r ∧ parseM0D cd r = none) →
      l.foldl (fun s iRow => if rowMatches cd comps iRow
        then jadd s (parseM0D cd iRow) else s) s = none := by
  intro l
  induction l with
  | nil => rintro s ⟨r, hr, _⟩; cases hr
  | cons x rest ih =>
    rintro s ⟨r, hr, hmatch, hnan⟩
    rcases List.mem_cons.1 hr with rfl | hr2
    · simp only [List.foldl_cons, hmatch, if_true, hnan, jadd_none]
      exact specAgg_fold_none cd comps rest
    · simp only [List.foldl_cons]
      exact ih _ ⟨r, hr2, hmatch, hnan⟩

/-! ## Nodes, links and build state -/

/-- A graph node (`INodes`).  The source stores `id` and `group` as decimal
strings of the numbers generated here; the numbers are kept, since the
rendering is the only consumer of the text form. -/
structure Node where
  nid : Nat
  program : String
  name : CV
  group : Nat
  numberOfLeads : JVal
  percentage : Option ℚ
  description : String
  color : Option String
  selectionId : SelT
deriving DecidableEq, Repr

instance : Inhabited Node :=
  ⟨⟨0, "", CV.null, 0, JVal.null, none, "", none, SelT.anil⟩⟩

/-- A link (`ILinks`); `source`/`target` are the numeric ids. -/
structure Link where
  source : Nat
  target : Nat
  value : JVal
  activity : String
deriving DecidableEq, Repr

/-- `IJourneyData`. -/
structure JourneyData where
  nodes : List Node
  links : List Link
deriving DecidableEq, Repr

/-- `getDefaultData()`. -/
def getDefaultData : JourneyData := ⟨[], []⟩

/-- A legend entry (`ILegendDataPoint`, the parts the build consumes). -/
structure LegendPt where
  category : String
  color : String
deriving DecidableEq, Repr

/-- The instance state the build mutates. -/
structure St where
  nodes : List Node
  links : List Link
  idGen : Nat
  measureIdGen : Nat
  selectionArrayIndex : Nat
deriving DecidableEq, Repr

/-- The read-only instance state `calNodesNLinks` consumes. -/
structure Ctx where
  cats : List CatCol
  measureData : List MeasCol
  legend : List LegendPt
  measureDataLengthCount : Nat
  totalValues : Nat
  selection : List SelT
deriving Repr

/-- The `CatData` view used by cell accessors. -/
def Ctx.cd (ctx : Ctx) : CatData := ⟨ctx.cats, ctx.measureData⟩

/-! ## Color lookup -/

/-- Loop body of `calNodesNLinksColor`: first legend entry whose category
equals the first key component wins, otherwise the color ends as '#000'. -/
def calNodesNLinksColorGo (splitId0 : String) : List LegendPt → String
  | [] => "#000"
  | e :: rest =>
      if splitId0 = e.category then e.color
      else calNodesNLinksColorGo splitId0 rest

/-- Source `calNodesNLinksColor(splitId)` (undefined when the legend is
empty, since the local is never assigned). -/
def calNodesNLinksColor (legend : List LegendPt) (splitId0 : String) :
    Option String :=
  match legend with
  | [] => none
  | _ => some (calNodesNLinksColorGo splitId0 legend)

/-- Color loop of the hierarchy branch: an entry matches on the first key
component or on `element.toString()`; the disjunction short-circuits, so the
throwing `toString` only runs when the first test fails. -/
def nodeColorGo (splitId0 : String) (element : CV) :
    List LegendPt → Except Unit String
  | [] => .ok "#000"
  | e :: rest =>
      if e.category = splitId0 then .ok e.color
      else do
        let s ← cvToStringE element
        if e.category = s then .ok e.color
        else nodeColorGo splitId0 element rest

def nodeColor (legend : List LegendPt) (splitId0 : String) (element : CV) :
    Except Unit (Option String) :=
  match legend with
  | [] => .ok none
  | _ => do
      let c ← nodeColorGo splitId0 element legend
      .ok (some c)

/-! ## The measure-stage branch of `calNodesNLinks` -/

/-- Parse used on `measureValue` inside the percentage computation:
`parseFloat(measureValue.toString())`.  The only string that can sit there
is the substituted "0". -/
def jvalParseFloatE : JVal → Except Unit JNum
  | .str s => .ok (if s = "0" then some 0 else none)
  | .num n => .ok (some n)
  | .nan => .ok none
  | .null => .error ()

/-- The percentage of the stage at absolute column index `i`: 1 for column
0, otherwise the coerced current value over the parsed value of column
`i - 1` for the same row (whatever that column's role). -/
def stagePctE (ctx : Ctx) (i : Nat) (measureValue : JVal) (iRow : Nat) :
    Except Unit (Option ℚ) :=
  if i = 0 then .ok (some 1)
  else do
    let cur ← jvalParseFloatE measureValue
    let prev ← mvParseFloatE
      ((ctx.measureData.getD (i - 1) default).values.getD iRow MV.undef)
    .ok (jdivQ cur prev)

/-- One matching row: emit one node and one link per non-root measure
column, in column order.  `i` is the absolute column index; the chain link
comes from the previously generated measure id, or from the category node
for column 0. -/
def emitMeasChain (ctx : Ctx) (level : Nat) (parentId : Nat)
    (color : Option String) (iRow : Nat) :
    List (Nat × MeasCol) → St → Except Unit St
  | [], st => .ok st
  | (i, col) :: rest, st =>
      if col.isRoot then emitMeasChain ctx level parentId color iRow rest st
      else do
        let raw := col.values.getD iRow MV.undef
        let measureValue : JVal :=
          if (mvPlus raw).isNone then JVal.str "0" else raw.toJVal
        let newId := st.measureIdGen + 1
        let pct : Option ℚ ← stagePctE ctx i measureValue iRow
        let node : Node :=
          { nid := newId, program := col.displayName,
            name := CV.str col.displayName, group := level + 1,
            numberOfLeads := measureValue, percentage := pct,
            description := col.displayName, color := color,
            selectionId := selGet ctx.selection st.selectionArrayIndex }
        let link : Link :=
          { source := if i = 0 then parentId else newId - 1,
            target := newId, value := measureValue, activity := "" }
        let st2 : St :=
          { st with nodes := st.nodes ++ [node], links := st.links ++ [link],
                    measureIdGen := newId }
        emitMeasChain ctx level parentId color iRow rest st2

/-- Level loop of the measure branch for one row: count matches against the
key; at a full match compute the branch color, emit the chain and advance
the selection index. -/
def measRowLvls (ctx : Ctx) (splitId : List String) (level parentId iRow : Nat) :
    List Nat → Nat → St → Except Unit St
  | [], _, st => .ok st
  | cat :: rest, cnt, st => do
      let s ← getCatCellE ctx.cd cat iRow
      if s = splitId.getD cat "" then
        if cnt + 1 = level then do
          let color := calNodesNLinksColor ctx.legend (splitId.getD 0 "")
          let st2 ← emitMeasChain ctx level parentId color iRow
            ctx.measureData.enum st
          let st3 : St :=
            { st2 with selectionArrayIndex := st2.selectionArrayIndex + 1 }
          measRowLvls ctx splitId level parentId iRow rest (cnt + 1) st3
        else measRowLvls ctx splitId level parentId iRow rest (cnt + 1) st
      else measRowLvls ctx splitId level parentId iRow rest cnt st

/-- Row loop of the measure branch. -/
def measRows (ctx : Ctx) (splitId : List String) (level parentId : Nat) :
    List Nat → St → Except Unit St
  | [], st => .ok st
  | iRow :: rows, st => do
      let st2 ← measRowLvls ctx splitId level parentId iRow
        (List.range level) 0 st
      measRows ctx splitId level parentId rows st2

/-! ## The hierarchy branch of `calNodesNLinks` -/

/-- Level loop of the row filter (`combinedID !== ''`): on a full match the
raw level-`level` cell of the row is appended. -/
def filterRowLvls (ctx : Ctx) (splitId : List String) (level iRow : Nat) :
    List Nat → Nat → List CV → Except Unit (List CV)
  | [], _, acc => .ok acc
  | cat :: rest, cnt, acc => do
      let s ← getCatCellE ctx.cd cat iRow
      if s = splitId.getD cat "" then
        if cnt + 1 = level then
          filterRowLvls ctx splitId level iRow rest (cnt + 1)
            (acc ++ [(ctx.cats.getD level default).values.getD iRow CV.undef])
        else filterRowLvls ctx splitId level iRow rest (cnt + 1) acc
      else filterRowLvls ctx splitId level iRow rest cnt acc

/-- Row loop of the filter. -/
def filterRows (ctx : Ctx) (splitId : List String) (level : Nat) :
    List Nat → List CV → Except Unit (List CV)
  | [], acc => .ok acc
  | iRow :: rows, acc => do
      let acc2 ← filterRowLvls ctx splitId level iRow (List.range level) 0 acc
      filterRows ctx splitId level rows acc2

/-- `uniqueElements` of the hierarchy branch: distinct values of the
matching rows at the current level, or of the whole level-0 column at the
root call. -/
def uniqueElems (ctx : Ctx) (combinedID : String) (level : Nat) :
    Except Unit (List CV) :=
  if combinedID ≠ "" then do
    let filtered ← filterRows ctx (jsSplitStars combinedID) level
      (List.range ctx.totalValues) []
    .ok (filterDistinct filtered)
  else
    .ok (filterDistinct (ctx.cats.getD 0 default).values)

/-- The key extension of the hierarchy branch: at level 0 the element text
alone (`element.toString()`, which throws on null), deeper the JS
concatenation `combinedID + '***' + element`, which coerces null. -/
def newCombinedIDE (combinedID : String) (level : Nat) (element : CV) :
    Except Unit String :=
  if level = 0 then cvToStringE element
  else .ok (cvConcat (combinedID ++ "***") element)

/-- The node pushed for one distinct element. -/
def hierNode (lvlCol : CatCol) (level : Nat) (element : CV)
    (newCombinedID : String) (leads parentSum : JNum) (color : Option String)
    (newId : Nat) : Node :=
  { nid := newId, program := lvlCol.displayName, name := element,
    group := level + 1, numberOfLeads := JVal.ofJNum leads,
    percentage := jdivQ leads parentSum, description := newCombinedID,
    color := color, selectionId := SelT.anil }

/-- The link pushed for one distinct element (weight = child aggregate). -/
def hierLink (parentId newId : Nat) (leads : JNum) : Link :=
  { source := parentId, target := newId, value := JVal.ofJNum leads,
    activity := "" }

/-- Appending the new link and node and advancing the id generator. -/
def pushHier (st : St) (n : Node) (l : Link) : St :=
  { st with nodes := st.nodes ++ [n], links := st.links ++ [l],
            idGen := st.idGen + 1 }

/-- Per-element body of the hierarchy branch `forEach`, with the recursive
call for the next level passed as `f`.  Order follows the source: color
lookup, id generation, key extension, aggregation, link push, node push,
recursion. -/
def goElems (ctx : Ctx) (lvlCol : CatCol) (combinedID : String) (level : Nat)
    (parentId : Nat) (parentSum : JNum) (splitId : List String)
    (f : String → Nat → JNum → St → Except Unit St) :
    List CV → St → Except Unit St
  | [], st => .ok st
  | element :: rest, st => do
      let color ← nodeColor ctx.legend (splitId.getD 0 "") element
      let newId := st.idGen
      let newCombinedID ← newCombinedIDE combinedID level element
      let leads ← calAggregate ctx.cd newCombinedID ctx.totalValues
      let st2 := pushHier st
        (hierNode lvlCol level element newCombinedID leads parentSum color newId)
        (hierLink parentId newId leads)
      let st3 ← f newCombinedID newId leads st2
      goElems ctx lvlCol combinedID level parentId parentSum splitId f rest st3

/-- Source `calNodesNLinks`.  `remCats` is `catDataset` from the current
level on (`remCats = ctx.cats.drop level` at every call), so the branch test
`!catDataset[level]` becomes emptiness of `remCats` and the recursion is
structural. -/
def calNodesNLinks (ctx : Ctx) (remCats : List CatCol) (combinedID : String)
    (level : Nat) (parentId : Nat) (parentSum : JNum) (st : St) :
    Except Unit St :=
  match remCats with
  | [] =>
      if 1 < ctx.measureData.length ∧ 1 < ctx.measureDataLengthCount then
        measRows ctx (jsSplitStars combinedID) level parentId
          (List.range ctx.totalValues) st
      else .ok st
  | lvlCol :: rest => do
      let elems ← uniqueElems ctx combinedID level
      goElems ctx lvlCol combinedID level parentId parentSum
        (jsSplitStars combinedID)
        (fun cid pid psum st2 =>
          calNodesNLinks ctx rest cid (level + 1) pid psum st2)
        elems st

/-! ## `addSelection` and the per-depth passes -/

/-- Push a selection payload onto the selection array of the node at
position `i`. -/
def pushSelAt (nodes : List Node) (i : Nat) (t : SelT) : List Node :=
  match nodes[i]? with
  | none => nodes
  | some n => nodes.set i { n with selectionId := n.selectionId.push t }

/-- First pass when at most one flow-stage measure is present: scan from
index 1; the j-th node carrying the deepest column name receives the j-th
row token, positionally. -/
def addSelLoop1 (dispName : String) (selection : List SelT) :
    Nat → Nat → Nat → List Node → List Node
  | 0, _, _, nodes => nodes
  | fuel+1, i, j, nodes =>
      if i < nodes.length then
        if (nodes.getD i default).program = dispName then
          addSelLoop1 dispName selection fuel (i+1) (j+1)
            (pushSelAt nodes i (selGet selection j))
        else addSelLoop1 dispName selection fuel (i+1) j nodes
      else nodes

/-- Inner while of the multi-measure first pass: starting after node `n`,
push the token repeatedly until the next deepest-level node appears;
reading past the end throws at `.program`. -/
def addSelB2While (dispName : String) (tk : SelT) (nIdx : Nat) :
    Nat → Nat → List Node → Except Unit (List Node)
  | 0, _, nodes => .ok nodes
  | fuel+1, k, nodes =>
      match nodes[k+1]? with
      | none => .error ()
      | some nd =>
          if nd.program = dispName then .ok nodes
          else
            let nodes2 := pushSelAt nodes nIdx tk
            if k + 1 = nodes2.length - 1 then .ok nodes2
            else addSelB2While dispName tk nIdx fuel (k+1) nodes2

/-- Outer loop of the multi-measure first pass. -/
def addSelB2Outer (dispName : String) (selection : List SelT) :
    Nat → Nat → Nat → List Node → Except Unit (List Node)
  | 0, _, _, nodes => .ok nodes
  | fuel+1, n, y, nodes =>
      if n < nodes.length then
        if (nodes.getD n default).program = dispName then do
          let nodes2 ← addSelB2While dispName (selGet selection y) n
            nodes.length n nodes
          addSelB2Outer dispName selection fuel (n+1) (y+1) nodes2
        else addSelB2Outer dispName selection fuel (n+1) y nodes
      else .ok nodes

/-- Inner while of `catLen1` in the single-measure shape: consecutive nodes
whose program is the deepest column name are children; each child selection
array is pushed wholesale into node `i`. -/
def catLen1WhileA (deepest : String) (iIdx : Nat) :
    Nat → Nat → List Node → Except Unit (List Node)
  | 0, _, nodes => .ok nodes
  | fuel+1, k, nodes =>
      match nodes[k+1]? with
      | none => .error ()
      | some nd =>
          if nd.program = deepest then
            let nodes2 := pushSelAt nodes iIdx nd.selectionId
            if k + 1 = nodes2.length - 1 then .ok nodes2
            else catLen1WhileA deepest iIdx fuel (k+1) nodes2
          else .ok nodes

/-- Shared inner while of the remaining passes: walk until the next node at
the outer column (`stopName`), pushing the selection arrays of the nodes at
the child column (`pickName`). -/
def selWhileSkip (stopName pickName : String) (iIdx : Nat) :
    Nat → Nat → List Node → Except Unit (List Node)
  | 0, _, nodes => .ok nodes
  | fuel+1, k, nodes =>
      match nodes[k+1]? with
      | none => .error ()
      | some nd =>
          if nd.program = stopName then .ok nodes
          else
            let nodes2 :=
              if nd.program = pickName then pushSelAt nodes iIdx nd.selectionId
              else nodes
            if k + 1 = nodes2.length - 1 then .ok nodes2
            else selWhileSkip stopName pickName iIdx fuel (k+1) nodes2

/-- Outer loop driving `catLen1WhileA`. -/
def selOuterA (outerName deepest : String) :
    Nat → Nat → List Node → Except Unit (List Node)
  | 0, _, nodes => .ok nodes
  | fuel+1, i, nodes =>
      if i < nodes.length then
        if (nodes.getD i default).program = outerName then do
          let nodes2 ← catLen1WhileA deepest i nodes.length i nodes
          selOuterA outerName deepest fuel (i+1) nodes2
        else selOuterA outerName deepest fuel (i+1) nodes
      else .ok nodes

/-- Outer loop driving `selWhileSkip`. -/
def selOuterB (outerName stopName pickName : String) :
    Nat → Nat → List Node → Except Unit (List Node)
  | 0, _, nodes => .ok nodes
  | fuel+1, i, nodes =>
      if i < nodes.length then
        if (nodes.getD i default).program = outerName then do
          let nodes2 ← selWhileSkip stopName pickName i nodes.length i nodes
          selOuterB outerName stopName pickName fuel (i+1) nodes2
        else selOuterB outerName stopName pickName fuel (i+1) nodes
      else .ok nodes

/-- Source `catLen1`. -/
def catLen1 (ctx : Ctx) (catData : List CatCol) (catLen measureDataLen : Nat)
    (nodes : List Node) : Except Unit (List Node) :=
  if measureDataLen = 1 ∨ ctx.measureDataLengthCount ≤ 1 then
    selOuterA (catData.getD (catLen - 2) default).displayName
      (catData.getD (catLen - 1) default).displayName nodes.length 1 nodes
  else
    selOuterB (catData.getD (catLen - 2) default).displayName
      (catData.getD (catLen - 2) default).displayName
      (catData.getD (catLen - 1) default).displayName nodes.length 1 nodes

/-- Source `catLen2`. -/
def catLen2 (catData : List CatCol) (catLen : Nat) (nodes : List Node) :
    Except Unit (List Node) :=
  selOuterB (catData.getD (catLen - 3) default).displayName
    (catData.getD (catLen - 3) default).displayName
    (catData.getD (catLen - 2) default).displayName nodes.length 1 nodes

/-- Source `catLen3`. -/
def catLen3 (catData : List CatCol) (catLen : Nat) (nodes : List Node) :
    Except Unit (List Node) :=
  selOuterB (catData.getD (catLen - 4) default).displayName
    (catData.getD (catLen - 4) default).displayName
    (catData.getD (catLen - 3) default).displayName nodes.length 1 nodes

/-- The first pass of `addSelection`: the token assignment, whose shape
depends on whether more than one flow-stage measure is configured. -/
def addSelPass1 (ctx : Ctx) (catData : List CatCol) (nodes : List Node) :
    Except Unit (List Node) :=
  if ctx.measureData.length = 1 ∨ ctx.measureDataLengthCount ≤ 1 then
    .ok (addSelLoop1 (catData.getD (catData.length - 1) default).displayName
      ctx.selection nodes.length 1 0 nodes)
  else
    addSelB2Outer (catData.getD (catData.length - 1) default).displayName
      ctx.selection nodes.length 1 0 nodes

/-- The `catLen > 1` guard around `catLen1`. -/
def catLen1Guard (ctx : Ctx) (catData : List CatCol) (nodes : List Node) :
    Except Unit (List Node) :=
  if 1 < catData.length then
    catLen1 ctx catData catData.length ctx.measureData.length nodes
  else .ok nodes

/-- The `catLen > 2` guard around `catLen2`. -/
def catLen2Guard (catData : List CatCol) (nodes : List Node) :
    Except Unit (List Node) :=
  if 2 < catData.length then catLen2 catData catData.length nodes else .ok nodes

/-- The `catLen > 3` guard around `catLen3`. -/
def catLen3Guard (catData : List CatCol) (nodes : List Node) :
    Except Unit (List Node) :=
  if 3 < catData.length then catLen3 catData catData.length nodes else .ok nodes

/-- Source `addSelection`: the token pass, then the hand-unrolled per-depth
union passes, which exist only for category depths 2, 3 and 4. -/
def addSelection (ctx : Ctx) (catData : List CatCol) (st : St) :
    Except Unit St := do
  let nodes1 ← addSelPass1 ctx catData st.nodes
  let nodes2 ← catLen1Guard ctx catData nodes1
  let nodes3 ← catLen2Guard catData nodes2
  let nodes4 ← catLen3Guard catData nodes3
  .ok { st with nodes := nodes4 }

/-! ## `converter` -/

/-- The root settings the converter consumes (`IRootSettings`). -/
structure RootSettings where
  showDataLabel : Bool
  text : String
  rootOption : String
  color : String
deriving DecidableEq, Repr

/-- External text helper `getTailoredTextOrDefault` (tailoring only
truncates for display; modelled as the identity on the text). -/
def getTailoredTextOrDefault (t : String) : String := t

/-- Legend construction: one entry per distinct level-0 value;
`values[i].toString()` throws on a null distinct value.  The per-category
user color override is a settings read (out of the core, spec section 1),
so the generated palette color stands. -/
def buildLegend (palette : String → String) : List CV → Except Unit (List LegendPt)
  | [] => .ok []
  | v :: rest => do
      let s ← cvToStringE v
      let tail ← buildLegend palette rest
      .ok ({ category := s, color := palette s } :: tail)

/-- Root-label override: when exactly one measure carries the root role the
root name comes from the first or last row of the LAST measure column,
otherwise the tailored root text stands (the initial null name survives an
unrecognised `rootOption`). -/
def rootNameE (cd : CatData) (rootCount : Nat) (rootLabel : String)
    (tailoredText : String) : Except Unit CV :=
  if rootCount = 1 then
    if rootLabel = "First" then do
      let s ← mvToStringE
        ((cd.values.getD (cd.values.length - 1) default).values.getD 0 MV.undef)
      .ok (CV.str s)
    else if rootLabel = "Last" then do
      let col := cd.values.getD (cd.values.length - 1) default
      let s ← mvToStringE (col.values.getD (col.values.length - 1) MV.undef)
      .ok (CV.str s)
    else .ok CV.null
  else .ok (CV.str tailoredText)

/-- The row count the build works with (`values[0].values.length`). -/
def rowsOf (cd : CatData) : Nat := (cd.values.getD 0 default).values.length

/-- `localTotal` of the converter: the length of the first categorical
column. -/
def localTotalOf (cd : CatData) : Nat :=
  (cd.categories.getD 0 default).values.length

/-- The selection-token array: one host token per row index, the count taken
as the larger of the first categorical and the first measure column. -/
def selectionOf (cd : CatData) : List SelT :=
  (List.range (max (cd.categories.getD 0 default).values.length
    (cd.values.getD 0 default).values.length)).map SelT.tok

/-- How many measure columns carry the root role. -/
def rootCountOf (cd : CatData) : Nat :=
  (cd.values.filter (fun m => m.isRoot)).length

/-- `measureDataLengthCount`: how many measure columns are flow stages. -/
def mdlCountOf (cd : CatData) : Nat :=
  (cd.values.filter (fun m => !m.isRoot)).length

/-- The context handed to the build loops. -/
def mkCtx (cd : CatData) (legend : List LegendPt) : Ctx :=
  { cats := cd.categories, measureData := cd.values, legend := legend,
    measureDataLengthCount := mdlCountOf cd, totalValues := rowsOf cd,
    selection := selectionOf cd }

/-- The root node the converter seeds the state with. -/
def mkRootNode (cd : CatData) (rs : RootSettings) (rootSum : JNum)
    (rootName : CV) : Node :=
  { nid := 0, program := getTailoredTextOrDefault rs.text, name := rootName,
    group := 0, numberOfLeads := JVal.ofJNum rootSum, percentage := some 1,
    description := "", color := some rs.color,
    selectionId := selArr (selectionOf cd) }

/-- The root self-link. -/
def mkRootLink (rootLinkVal : JNum) : Link :=
  { source := 0, target := 0, value := JVal.ofJNum rootLinkVal,
    activity := "" }

/-- The initial build state: the root node, its self-link and the two id
generators at their seeds. -/
def mkSt0 (cd : CatData) (rs : RootSettings) (rootSum : JNum) (rootName : CV)
    (rootLinkVal : JNum) : St :=
  { nodes := [mkRootNode cd rs rootSum rootName],
    links := [mkRootLink rootLinkVal], idGen := 1,
    measureIdGen := 10000000, selectionArrayIndex := 0 }

/-- The converter interior, once both bags are present and non-empty.
Returns the final build state together with the context, so invariants can
speak about the generators. -/
def converterCore (cd : CatData) (palette : String → String)
    (rs : RootSettings) : Except Unit (St × Ctx) := do
  let rootSum ← calAggregate cd "none" (localTotalOf cd)
  let legend ← buildLegend palette
    (filterDistinct (cd.categories.getD 0 default).values)
  let rootName ← rootNameE cd (rootCountOf cd) rs.rootOption
    (getTailoredTextOrDefault rs.text)
  let rootLinkVal ← calAggregate cd "none" (localTotalOf cd)
  let st ← calNodesNLinks (mkCtx cd legend) cd.categories "" 0 0 rootSum
    (mkSt0 cd rs rootSum rootName rootLinkVal)
  let st2 ← addSelection (mkCtx cd legend) cd.categories st
  .ok (st2, mkCtx cd legend)

/-- Source `converter`: on a missing or empty bag the default (empty) data
is returned untouched. -/
def converter (dv : Categorical) (palette : String → String)
    (rs : RootSettings) : Except Unit JourneyData :=
  match dv.categories, dv.values with
  | some cats, some vals =>
      if 0 < cats.length ∧ 0 < vals.length then do
        let r ← converterCore ⟨cats, vals⟩ palette rs
        .ok ⟨r.1.nodes, r.1.links⟩
      else .ok getDefaultData
  | _, _ => .ok getDefaultData

/-! ## The advisory messages of `update` -/

def errorMessageCategory : String := "Please select Category Data."
def errorMessageMeasure : String := "Please select Measure Data."
def errorMessageCategoryNull : String := "Category value is null."
def errorMessageMeasureNull : String := "Measure value is null."

/-- Final text of the `#errorMessage` element after the checks at the top of
`update` (each `text(...)` call replaces the previous one, so the last
branch that fires wins; `none` means the element stays hidden). -/
def finalErrorMessage (dv : Categorical) : Option String :=
  let afterCats : Option String :=
    match dv.categories with
    | none => some errorMessageCategory
    | some cats =>
        if cats.any (fun c => c.values.any (fun v => v = CV.null))
        then some errorMessageCategoryNull else none
  match dv.values with
  | none => some errorMessageMeasure
  | some vals =>
      if vals.any (fun m => m.values.any (fun v => v = MV.null))
      then some errorMessageMeasureNull else afterCats

/-! ## Build preconditions -/

/-- A categorical cell acceptable to the key encoding: a plain non-empty
string free of the delimiter character (an empty value would make the
`combinedID !== ''` root test misfire at deeper levels). -/
def cvClean : CV → Bool
  | CV.str s => !s.data.contains '*' && !(s = "")
  | _ => false

def mvNotNull : MV → Bool
  | MV.null => false
  | MV.undef => false
  | _ => true

/-- Preconditions under which the build is exception-free and the key
encoding is injective: both bags non-empty, at least one row, equal column
lengths, categorical cells plain star-free strings, no level-0 value equal
to the root sentinel "none", no null measure cells. -/
def Hyps (cd : CatData) : Prop :=
  cd.categories ≠ [] ∧ cd.values ≠ [] ∧ 1 ≤ rowsOf cd ∧
  (∀ c ∈ cd.categories, c.values.length = rowsOf cd) ∧
  (∀ m ∈ cd.values, m.values.length = rowsOf cd) ∧
  (∀ c ∈ cd.categories, ∀ v ∈ c.values, cvClean v = true) ∧
  (∀ v ∈ (cd.categories.getD 0 default).values, v ≠ CV.str "none") ∧
  (∀ m ∈ cd.values, ∀ x ∈ m.values, mvNotNull x = true)

instance (cd : CatData) : Decidable (Hyps cd) := by
  unfold Hyps; infer_instance

theorem getCatCellE_eq (cd : CatData) (l r : Nat) (col : CatCol)
    (h : cd.categories[l]? = some col) :
    getCatCellE cd l r = cvToStringE (col.values.getD r CV.undef) := by
  unfold getCatCellE; rw [h]

theorem getMeasure0E_eq (cd : CatData) (r : Nat) (col : MeasCol)
    (h : cd.values[0]? = some col) :
    getMeasure0E cd r = mvParseFloatE (col.values.getD r MV.undef) := by
  unfold getMeasure0E; rw [h]

theorem hyps_cellsOK {cd : CatData} (hy : Hyps cd) :
    CellsOK cd cd.categories.length (rowsOf cd) := by
  obtain ⟨-, -, -, hlen, -, hclean, -, -⟩ := hy
  intro l hl r hr
  have hcol : cd.categories[l]? = some cd.categories[l] := List.getElem?_eq_getElem hl
  have hcolD : cd.categories.getD l default = cd.categories[l] := by
    rw [List.getD_eq_getElem?_getD, hcol]; rfl
  have hrlen : r < (cd.categories[l]).values.length := by
    rw [hlen _ (List.getElem_mem hl)]; exact hr
  have hv : (cd.categories[l]).values.getD r CV.undef = (cd.categories[l]).values[r] := by
    rw [List.getD_eq_getElem?_getD, List.getElem?_eq_getElem hrlen]; rfl
  have hcl := hclean _ (List.getElem_mem hl) _ (List.getElem_mem hrlen)
  rw [getCatCellE_eq cd l r _ hcol, hv]
  unfold catStrD
  rw [hcolD, hv]
  cases hval : (cd.categories[l]).values[r] with
  | str s => rfl
  | null => rw [hval] at hcl; simp [cvClean] at hcl
  | undef => rw [hval] at hcl; simp [cvClean] at hcl

theorem hyps_meas0OK {cd : CatData} (hy : Hyps cd) : Meas0OK cd (rowsOf cd) := by
  obtain ⟨-, hv, -, -, hlen, -, -, hnn⟩ := hy
  intro r hr
  have h0 : 0 < cd.values.length := List.length_pos.2 hv
  have hcol : cd.values[0]? = some cd.values[0] := List.getElem?_eq_getElem h0
  have hcolD : cd.values.getD 0 default = cd.values[0] := by
    rw [List.getD_eq_getElem?_getD, hcol]; rfl
  have hrlen : r < (cd.values[0]).values.length := by
    rw [hlen _ (List.getElem_mem h0)]; exact hr
  have hval : (cd.values[0]).values.getD r MV.undef = (cd.values[0]).values[r] := by
    rw [List.getD_eq_getElem?_getD, List.getElem?_eq_getElem hrlen]; rfl
  have hnnr := hnn _ (List.getElem_mem h0) _ (List.getElem_mem hrlen)
  rw [getMeasure0E_eq cd r _ hcol, hval]
  unfold parseM0D
  rw [hcolD, hval]
  cases hv2 : (cd.values[0]).values[r] with
  | null => rw [hv2] at hnnr; simp [mvNotNull] at hnnr
  | num n => rfl
  | nonnum s => rfl
  | undef => rw [hv2] at hnnr; simp [mvNotNull] at hnnr

/-! ## Characterization of the hierarchy-branch filter -/

/-- Row match on the first `level` components of a split key. -/
def rowMatchesL (cd : CatData) (splitId : List String) (level iRow : Nat) : Bool :=
  (List.range level).all fun lvl => catStrD cd lvl iRow == splitId.getD lvl ""

theorem rowMatches_eq_rowMatchesL (cd : CatData) (comps : List String) (iRow : Nat) :
    rowMatches cd comps iRow = rowMatchesL cd comps comps.length iRow := rfl

/-- The list the filter loop is specified to produce: the raw level-`level`
cells of the matching rows, in row order. -/
def specFiltered (cd : CatData) (splitId : List String) (level : Nat)
    (rowsList : List Nat) : List CV :=
  rowsList.filterMap fun r =>
    if rowMatchesL cd splitId level r
    then some ((cd.categories.getD level default).values.getD r CV.undef)
    else none

theorem filterRowLvls_no_trigger (ctx : Ctx) (splitId : List String)
    (level iRow : Nat) :
    ∀ (ls : List Nat) (cnt : Nat) (acc : List CV),
      (∀ l ∈ ls, getCatCellE ctx.cd l iRow = .ok (catStrD ctx.cd l iRow)) →
      cnt + ls.length < level →
      filterRowLvls ctx splitId level iRow ls cnt acc = .ok acc := by
  intro ls
  induction ls with
  | nil => intro cnt acc _ _; rfl
  | cons l ls2 ih =>
    intro cnt acc hcells hlt
    simp only [filterRowLvls, hcells l (by simp), okBind]
    by_cases hm : catStrD ctx.cd l iRow = splitId.getD l ""
    · rw [if_pos hm, if_neg (by simp only [List.length_cons] at hlt; omega)]
      exact ih _ _ (fun x hx => hcells x (by simp [hx]))
        (by simp only [List.length_cons] at hlt; omega)
    · rw [if_neg hm]
      exact ih _ _ (fun x hx => hcells x (by simp [hx]))
        (by simp only [List.length_cons] at hlt; omega)

theorem filterRowLvls_last (ctx : Ctx) (splitId : List String) (level iRow : Nat) :
    ∀ (ls : List Nat) (cnt : Nat) (acc : List CV),
      ls ≠ [] →
      (∀ l ∈ ls, getCatCellE ctx.cd l iRow = .ok (catStrD ctx.cd l iRow)) →
      cnt + ls.length = level →
      filterRowLvls ctx splitId level iRow ls cnt acc =
        .ok (acc ++ (if ls.all (fun l => catStrD ctx.cd l iRow == splitId.getD l "")
          then [(ctx.cats.getD level default).values.getD iRow CV.undef] else [])) := by
  intro ls
  induction ls with
  | nil => intro _ _ h; exact absurd rfl h
  | cons l ls2 ih =>
    intro cnt acc _ hcells hlen
    simp only [filterRowLvls, hcells l (by simp), okBind]
    by_cases hm : catStrD ctx.cd l iRow = splitId.getD l ""
    · rw [if_pos hm]
      cases ls2 with
      | nil =>
        rw [if_pos (by simp only [List.length_cons, List.length_nil] at hlen; omega)]
        simp only [filterRowLvls]
        simp [List.all_cons, hm]
      | cons l2 ls3 =>
        rw [if_neg (by simp only [List.length_cons] at hlen; omega)]
        rw [ih _ _ (by simp) (fun x hx => hcells x (by simp [hx]))
          (by simp only [List.length_cons] at hlen ⊢; omega)]
        simp [List.all_cons, hm]
    · rw [if_neg hm]
      have habs : ¬ ((l :: ls2).all fun x => catStrD ctx.cd x iRow == splitId.getD x "") := by
        simp only [List.all_cons, Bool.and_eq_true, beq_iff_eq]
        intro h; exact hm h.1
      rw [filterRowLvls_no_trigger ctx splitId level iRow ls2 cnt acc
        (fun x hx => hcells x (by simp [hx]))
        (by simp only [List.length_cons] at hlen; omega)]
      simp only [habs, if_false, Bool.false_eq_true, List.append_nil]

theorem filterRows_ok (ctx : Ctx) (cd : CatData) (hcd : ctx.cd = cd)
    (splitId : List String) (level : Nat) (hlev : 1 ≤ level) :
    ∀ (rowsList : List Nat) (acc : List CV),
      (∀ r ∈ rowsList, ∀ l, l < level →
        getCatCellE cd l r = .ok (catStrD cd l r)) →
      filterRows ctx splitId level rowsList acc =
        .ok (acc ++ specFiltered cd splitId level rowsList) := by
  intro rowsList
  induction rowsList with
  | nil => intro acc _; simp [filterRows, specFiltered]
  | cons r rest ih =>
    intro acc hcells
    simp only [filterRows]
    have h1 : (List.range level) ≠ [] := by
      intro h
      have := List.range_eq_nil.1 h
      omega
    have hrow := filterRowLvls_last ctx splitId level r (List.range level) 0 acc h1
      (fun l hl => by rw [hcd]; exact hcells r (by simp) l (List.mem_range.1 hl))
      (by simp)
    have hcats : ctx.cats = cd.categories := by rw [← hcd]; rfl
    rw [hcd, hcats] at hrow
    have hspec : specFiltered cd splitId level (r :: rest)
        = (if ((List.range level).all fun l => catStrD cd l r == splitId.getD l "")
           then [(cd.categories.getD level default).values.getD r CV.undef] else [])
          ++ specFiltered cd splitId level rest := by
      simp only [specFiltered, List.filterMap_cons, rowMatchesL]
      by_cases hm : ((List.range level).all
          fun lvl => catStrD cd lvl r == splitId.getD lvl "") = true
      · rw [if_pos hm, if_pos hm]; rfl
      · rw [if_neg hm, if_neg hm]; rfl
    rw [hrow]
    simp only [okBind]
    rw [ih _ (fun x hx l hl => hcells x (by simp [hx]) l hl)]
    rw [hspec, List.append_assoc]

/-! ## Per-node facts and the build invariant -/

/-- The skeleton of a node: every field the build computes except the
selection array, which `addSelection` mutates afterwards. -/
structure NodeSkel where
  nid : Nat
  program : String
  name : CV
  group : Nat
  numberOfLeads : JVal
  percentage : Option ℚ
  description : String
  color : Option String

def Node.skel (n : Node) : NodeSkel :=
  ⟨n.nid, n.program, n.name, n.group, n.numberOfLeads, n.percentage,
   n.description, n.color⟩

/-- What the build guarantees for the root node. -/
def RootFact (cd : CatData) (n : Node) : Prop :=
  n.nid = 0 ∧ n.group = 0 ∧
  n.numberOfLeads = JVal.ofJNum (specAggAll cd (rowsOf cd)) ∧
  n.percentage = some 1

/-- What the build guarantees for a hierarchy node: its description encodes
a non-empty hierarchical key of star-free components, its aggregate is the
component-wise matching sum over that key, and its percentage is that
aggregate divided by the aggregate of the linked parent node. -/
def HierFact (cd : CatData) (st : St) (n : Node) : Prop :=
  1 ≤ n.nid ∧ n.nid < st.idGen ∧
  ∃ comps : List String, comps ≠ [] ∧ comps.length ≤ cd.categories.length ∧
    (∀ c ∈ comps, noStar c) ∧
    n.description = joinStars comps ∧
    n.group = comps.length ∧
    n.program = (cd.categories.getD (comps.length - 1) default).displayName ∧
    n.numberOfLeads = JVal.ofJNum (specAgg cd comps (rowsOf cd)) ∧
    ∃ p ∈ st.nodes, ∃ l ∈ st.links, l.source = p.nid ∧ l.target = n.nid ∧
      n.percentage = jdivQ (specAgg cd comps (rowsOf cd)) p.numberOfLeads.toJNum

/-- What the build guarantees for a measure-stage node. -/
def MeasFact (st : St) (n : Node) : Prop :=
  10000000 < n.nid ∧ n.nid ≤ st.measureIdGen

/-- The build invariant. -/
structure Inv (cd : CatData) (st : St) : Prop where
  idGe : 1 ≤ st.idGen
  mGe : 10000000 ≤ st.measureIdGen
  facts : ∀ n ∈ st.nodes, RootFact cd n ∨ HierFact cd st n ∨ MeasFact st n
  nodup : st.idGen ≤ 10000001 → (st.nodes.map Node.nid).Nodup
  hierSurj : ∀ k, 1 ≤ k → k < st.idGen → ∃ n ∈ st.nodes, n.nid = k
  measSurj : ∀ k, 10000000 < k → k ≤ st.measureIdGen → ∃ n ∈ st.nodes, n.nid = k

/-- State extension: the build only appends nodes and links and the
generators only grow. -/
def StExt (st st2 : St) : Prop :=
  (∃ ns, st2.nodes = st.nodes ++ ns) ∧ (∃ ls, st2.links = st.links ++ ls) ∧
  st.idGen ≤ st2.idGen ∧ st.measureIdGen ≤ st2.measureIdGen

theorem StExt.refl (st : St) : StExt st st :=
  ⟨⟨[], by simp⟩, ⟨[], by simp⟩, le_rfl, le_rfl⟩

theorem StExt.trans {s1 s2 s3 : St} (h1 : StExt s1 s2) (h2 : StExt s2 s3) :
    StExt s1 s3 := by
  obtain ⟨⟨n1, hn1⟩, ⟨l1, hl1⟩, hi1, hm1⟩ := h1
  obtain ⟨⟨n2, hn2⟩, ⟨l2, hl2⟩, hi2, hm2⟩ := h2
  exact ⟨⟨n1 ++ n2, by rw [hn2, hn1, List.append_assoc]⟩,
         ⟨l1 ++ l2, by rw [hl2, hl1, List.append_assoc]⟩,
         le_trans hi1 hi2, le_trans hm1 hm2⟩

theorem StExt.mem_nodes {st st2 : St} (h : StExt st st2) {n : Node}
    (hn : n ∈ st.nodes) : n ∈ st2.nodes := by
  obtain ⟨⟨ns, hns⟩, -, -, -⟩ := h
  rw [hns]; exact List.mem_append_left _ hn

theorem StExt.mem_links {st st2 : St} (h : StExt st st2) {l : Link}
    (hl : l ∈ st.links) : l ∈ st2.links := by
  obtain ⟨-, ⟨ls, hls⟩, -, -⟩ := h
  rw [hls]; exact List.mem_append_left _ hl

theorem hierFact_mono {cd : CatData} {st st2 : St} {n : Node}
    (h : HierFact cd st n) (hext : StExt st st2) : HierFact cd st2 n := by
  obtain ⟨h1, h2, comps, hc⟩ := h
  refine ⟨h1, lt_of_lt_of_le h2 hext.2.2.1, comps, hc.1, hc.2.1, hc.2.2.1,
    hc.2.2.2.1, hc.2.2.2.2.1, hc.2.2.2.2.2.1, hc.2.2.2.2.2.2.1, ?_⟩
  obtain ⟨p, hp, l, hl, hrest⟩ := hc.2.2.2.2.2.2.2
  exact ⟨p, hext.mem_nodes hp, l, hext.mem_links hl, hrest⟩

theorem measFact_mono {st st2 : St} {n : Node}
    (h : MeasFact st n) (hext : StExt st st2) : MeasFact st2 n :=
  ⟨h.1, le_trans h.2 hext.2.2.2⟩

/-- The parent witness handed to a recursive call: a node already in the
state carries the id and the aggregate the call receives. -/
def ParentW (st : St) (parentId : Nat) (parentSum : JNum) : Prop :=
  ∃ p ∈ st.nodes, p.nid = parentId ∧ p.numberOfLeads.toJNum = parentSum

theorem parentW_mono {st st2 : St} {parentId : Nat} {parentSum : JNum}
    (h : ParentW st parentId parentSum) (hext : StExt st st2) :
    ParentW st2 parentId parentSum := by
  obtain ⟨p, hp, h1, h2⟩ := h
  exact ⟨p, hext.mem_nodes hp, h1, h2⟩

@[simp] theorem jdivQ_zero (x : JNum) : jdivQ x (some 0) = none := by
  cases x <;> simp [jdivQ]

/-- The well-formedness of a `(combinedID, level)` pair passed through the
recursion: either the root call, or a joined non-empty key of clean
components matching the level. -/
def KeyInv (_cd : CatData) (combinedID : String) (level : Nat)
    (comps : List String) : Prop :=
  (level = 0 ∧ combinedID = "" ∧ comps = []) ∨
  (comps ≠ [] ∧ comps.length = level ∧ combinedID = joinStars comps ∧
   (∀ c ∈ comps, noStar c ∧ c ≠ "") ∧ combinedID ≠ "none")

theorem List.getD_mem {α : Type} (l : List α) (i : Nat) (d : α)
    (h : i < l.length) : l.getD i d ∈ l := by
  rw [List.getD_eq_getElem?_getD, List.getElem?_eq_getElem h]
  exact List.getElem_mem h

theorem joinStars_star_mem (comps : List String) (h : 2 ≤ comps.length) :
    '*' ∈ (joinStars comps).data := by
  match comps with
  | c :: d :: rest =>
    have he : joinStars (c :: d :: rest) = c ++ "***" ++ joinStars (d :: rest) := rfl
    rw [he, String.data_append, String.data_append]
    refine List.mem_append_left _ (List.mem_append_right _ ?_)
    decide

theorem joinStars_long_ne_none (comps : List String) (h : 2 ≤ comps.length) :
    joinStars comps ≠ "none" := by
  intro heq
  have hs := joinStars_star_mem comps h
  rw [heq] at hs
  revert hs
  decide

theorem joinStars_long_ne_empty (comps : List String) (h : 2 ≤ comps.length) :
    joinStars comps ≠ "" := by
  intro heq
  have hs := joinStars_star_mem comps h
  rw [heq] at hs
  revert hs
  decide

/-- A clean cell is a non-empty star-free string. -/
theorem cvClean_elim {v : CV} (h : cvClean v = true) :
    ∃ s, v = CV.str s ∧ noStar s ∧ s ≠ "" := by
  cases v with
  | str s =>
    refine ⟨s, rfl, ?_, ?_⟩
    · simp only [cvClean, Bool.and_eq_true, Bool.not_eq_true'] at h
      unfold noStar
      simpa using h.1
    · simp only [cvClean, Bool.and_eq_true, Bool.not_eq_true'] at h
      intro he
      have := h.2
      simp [he] at this
  | null => simp [cvClean] at h
  | undef => simp [cvClean] at h

/-- A value drawn from a categorical column under the hypotheses. -/
theorem hyps_value_clean {cd : CatData} (hy : Hyps cd) {level : Nat}
    (hl : level < cd.categories.length) {e : CV}
    (he : e ∈ (cd.categories.getD level default).values) :
    ∃ s, e = CV.str s ∧ noStar s ∧ s ≠ "" := by
  obtain ⟨-, -, -, -, -, hclean, -, -⟩ := hy
  exact cvClean_elim (hclean _ (List.getD_mem _ _ _ hl) _ he)

theorem enumFrom_facts {α : Type} [Inhabited α] :
    ∀ (l : List α) (k : Nat) (p : Nat × α), p ∈ List.enumFrom k l →
      k ≤ p.1 ∧ p.1 - k < l.length ∧ l.getD (p.1 - k) default = p.2 := by
  intro l
  induction l with
  | nil => intro k p hp; cases hp
  | cons a l2 ih =>
    intro k p hp
    rw [List.enumFrom_cons] at hp
    rcases List.mem_cons.1 hp with rfl | hp2
    · exact ⟨le_rfl, by simp, by simp⟩
    · obtain ⟨h1, h2, h3⟩ := ih (k+1) p hp2
      refine ⟨by omega, by simp; omega, ?_⟩
      have hgt : p.1 - k = (p.1 - (k+1)) + 1 := by omega
      rw [hgt]
      simpa using h3

theorem enum_facts {α : Type} [Inhabited α] (l : List α) (p : Nat × α)
    (hp : p ∈ l.enum) : p.1 < l.length ∧ l.getD p.1 default = p.2 := by
  have := enumFrom_facts l 0 p (by simpa [List.enum] using hp)
  simpa using this

/-! ## Success and invariance of the measure-stage branch -/

theorem emitMeasChain_ok {cd : CatData} (hy : Hyps cd) {ctx : Ctx}
    (hcd : ctx.cd = cd) (level parentId : Nat) (color : Option String)
    (iRow : Nat) (hrow : iRow < rowsOf cd) :
    ∀ (mlist : List (Nat × MeasCol)) (st : St),
      (∀ p ∈ mlist, p.1 < ctx.measureData.length ∧
        ctx.measureData.getD p.1 default = p.2) →
      Inv cd st →
      ∃ st2, emitMeasChain ctx level parentId color iRow mlist st = .ok st2 ∧
        Inv cd st2 ∧ StExt st st2 ∧ st2.idGen = st.idGen ∧
        st2.selectionArrayIndex = st.selectionArrayIndex := by
  have hmd : ctx.measureData = cd.values := by rw [← hcd]; rfl
  obtain ⟨-, -, -, -, hmlen, -, -, hnn⟩ := hy
  intro mlist
  induction mlist with
  | nil =>
    intro st _ hinv
    exact ⟨st, rfl, hinv, StExt.refl st, rfl, rfl⟩
  | cons p rest ih =>
    intro st hfacts hinv
    obtain ⟨i, col⟩ := p
    by_cases hroot : col.isRoot
    · simp only [emitMeasChain, hroot, if_true]
      exact ih st (fun q hq => hfacts q (by simp [hq])) hinv
    · have hif1 : i < ctx.measureData.length := (hfacts (i, col) (by simp)).1
      have hif2 : ctx.measureData.getD i default = col :=
        (hfacts (i, col) (by simp)).2
      have hcolmem : col ∈ cd.values := by
        rw [← hmd, ← hif2]
        exact List.getD_mem _ _ _ hif1
      have hclen : col.values.length = rowsOf cd := hmlen col hcolmem
      have hcell : col.values.getD iRow MV.undef = col.values[iRow] := by
        rw [List.getD_eq_getElem?_getD,
          List.getElem?_eq_getElem (by rw [hclen]; exact hrow)]
        rfl
      have hcellmem : col.values[iRow] ∈ col.values :=
        List.getElem_mem (by rw [hclen]; exact hrow)
      have hnncell := hnn col hcolmem _ hcellmem
      -- the raw cell is a number or a non-numeric primitive
      have hcases : (∃ n, col.values.getD iRow MV.undef = MV.num n) ∨
          (∃ s, col.values.getD iRow MV.undef = MV.nonnum s) := by
        rw [hcell]
        cases hv2 : col.values[iRow] with
        | null => rw [hv2] at hnncell; simp [mvNotNull] at hnncell
        | undef => rw [hv2] at hnncell; simp [mvNotNull] at hnncell
        | num n => exact Or.inl ⟨n, rfl⟩
        | nonnum s => exact Or.inr ⟨s, rfl⟩
      -- the coerced value parses without throwing
      have hmv : ∃ jv : JVal,
          (if (mvPlus (col.values.getD iRow MV.undef)).isNone then JVal.str "0"
           else (col.values.getD iRow MV.undef).toJVal) = jv ∧
          ∃ w, jvalParseFloatE jv = .ok w := by
        rcases hcases with ⟨n, hn⟩ | ⟨s, hs⟩
        · rw [hn]; exact ⟨JVal.num n, rfl, some n, rfl⟩
        · rw [hs]; exact ⟨JVal.str "0", rfl, some 0, rfl⟩
      obtain ⟨jv, hjv, w, hw⟩ := hmv
      -- the percentage computation succeeds
      have hpct : ∃ q : Option ℚ,
          stagePctE ctx i
            (if (mvPlus (col.values.getD iRow MV.undef)).isNone then JVal.str "0"
             else (col.values.getD iRow MV.undef).toJVal) iRow = .ok q := by
        unfold stagePctE
        by_cases hi : i = 0
        · rw [if_pos hi]; exact ⟨some 1, rfl⟩
        · rw [if_neg hi, hjv, hw, okBind]
          have hprevmem : ctx.measureData.getD (i - 1) default ∈ cd.values := by
            rw [← hmd]
            exact List.getD_mem _ _ _ (by omega)
          have hplen := hmlen _ hprevmem
          have hpcell : (ctx.measureData.getD (i - 1) default).values.getD iRow
              MV.undef = (ctx.measureData.getD (i - 1) default).values[iRow] := by
            rw [List.getD_eq_getElem?_getD,
              List.getElem?_eq_getElem (by rw [hplen]; exact hrow)]
            rfl
          have hpmem : (ctx.measureData.getD (i - 1) default).values[iRow]
              ∈ (ctx.measureData.getD (i - 1) default).values :=
            List.getElem_mem (by rw [hplen]; exact hrow)
          have hpnn := hnn _ hprevmem _ hpmem
          rw [hpcell]
          cases hv2 : (ctx.measureData.getD (i - 1) default).values[iRow] with
          | null => rw [hv2] at hpnn; simp [mvNotNull] at hpnn
          | undef => rw [hv2] at hpnn; simp [mvNotNull] at hpnn
          | num n => exact ⟨jdivQ w (some n), rfl⟩
          | nonnum s => exact ⟨jdivQ w none, rfl⟩
      obtain ⟨q, hq⟩ := hpct
      simp only [emitMeasChain, hroot, if_false, Bool.false_eq_true, hq, okBind]
      set newNode : Node :=
        { nid := st.measureIdGen + 1, program := col.displayName,
          name := CV.str col.displayName, group := level + 1,
          numberOfLeads := if (mvPlus (col.values.getD iRow MV.undef)).isNone
            then JVal.str "0" else (col.values.getD iRow MV.undef).toJVal,
          percentage := q, description := col.displayName, color := color,
          selectionId := selGet ctx.selection st.selectionArrayIndex } with hnewNode
      set newLink : Link :=
        { source := if i = 0 then parentId else st.measureIdGen + 1 - 1,
          target := st.measureIdGen + 1,
          value := if (mvPlus (col.values.getD iRow MV.undef)).isNone
            then JVal.str "0" else (col.values.getD iRow MV.undef).toJVal,
          activity := "" } with hnewLink
      set st2 : St :=
        { st with nodes := st.nodes ++ [newNode], links := st.links ++ [newLink],
                  measureIdGen := st.measureIdGen + 1 } with hst2
      have hidg : st2.idGen = st.idGen := rfl
      have hmidg : st2.measureIdGen = st.measureIdGen + 1 := rfl
      have hext : StExt st st2 :=
        ⟨⟨[newNode], rfl⟩, ⟨[newLink], rfl⟩, le_rfl, Nat.le_succ _⟩
      have hnodes2 : st2.nodes = st.nodes ++ [newNode] := rfl
      have hnew : newNode.nid = st.measureIdGen + 1 := rfl
      have hmge := hinv.mGe
      have hinv2 : Inv cd st2 := by
        refine ⟨hinv.idGe, le_trans hinv.mGe (Nat.le_succ _), ?_, ?_, ?_, ?_⟩
        · intro n hn
          rw [hnodes2] at hn
          rcases List.mem_append.1 hn with hn | hn
          · rcases hinv.facts n hn with h | h | h
            · exact Or.inl h
            · exact Or.inr (Or.inl (hierFact_mono h hext))
            · exact Or.inr (Or.inr (measFact_mono h hext))
          · rcases List.mem_singleton.1 hn with rfl
            refine Or.inr (Or.inr ⟨?_, le_rfl⟩)
            rw [hnew]
            omega
        · intro hbound
          rw [hidg] at hbound
          have hold := hinv.nodup hbound
          rw [hnodes2, List.map_append, List.nodup_append]
          refine ⟨hold, List.nodup_singleton _, ?_⟩
          intro x hx hx2
          simp only [List.map_cons, List.map_nil, List.mem_singleton] at hx2
          subst hx2
          simp only [List.mem_map] at hx
          obtain ⟨n, hn, hnid⟩ := hx
          rcases hinv.facts n hn with h | h | h
          · rw [h.1] at hnid; omega
          · have h2 := h.2.1
            omega
          · have h2 := h.2
            omega
        · intro k h1 h2
          rw [hidg] at h2
          obtain ⟨n, hn, hnid⟩ := hinv.hierSurj k h1 h2
          exact ⟨n, by rw [hnodes2]; exact List.mem_append_left _ hn, hnid⟩
        · intro k h1 h2
          rw [hmidg] at h2
          rcases Nat.lt_or_ge k (st.measureIdGen + 1) with hk | hk
          · obtain ⟨n, hn, hnid⟩ := hinv.measSurj k h1 (by omega)
            exact ⟨n, by rw [hnodes2]; exact List.mem_append_left _ hn, hnid⟩
          · have hke : k = st.measureIdGen + 1 := by omega
            subst hke
            exact ⟨newNode, by rw [hnodes2]; exact List.mem_append_right _ (by simp),
              hnew⟩
      obtain ⟨st3, hrun, hinv3, hext3, hid3, hsel3⟩ :=
        ih st2 (fun x hx => hfacts x (by simp [hx])) hinv2
      exact ⟨st3, hrun, hinv3, hext.trans hext3, hid3, hsel3⟩

theorem measRowLvls_ok {cd : CatData} (hy : Hyps cd) {ctx : Ctx}
    (hcd : ctx.cd = cd) (splitId : List String) (level parentId iRow : Nat)
    (hrow : iRow < rowsOf cd) (hlev : level ≤ cd.categories.length) :
    ∀ (ls : List Nat) (cnt : Nat) (st : St),
      (∀ l ∈ ls, l < level) →
      Inv cd st →
      ∃ st2, measRowLvls ctx splitId level parentId iRow ls cnt st = .ok st2 ∧
        Inv cd st2 ∧ StExt st st2 ∧ st2.idGen = st.idGen := by
  intro ls
  induction ls with
  | nil => intro cnt st _ hinv; exact ⟨st, rfl, hinv, StExt.refl st, rfl⟩
  | cons l ls2 ih =>
    intro cnt st hls hinv
    have hcell : getCatCellE ctx.cd l iRow = .ok (catStrD cd l iRow) := by
      rw [hcd]
      exact hyps_cellsOK hy l (lt_of_lt_of_le (hls l (by simp)) hlev) iRow hrow
    simp only [measRowLvls, hcell, okBind]
    by_cases hm : catStrD cd l iRow = splitId.getD l ""
    · rw [if_pos hm]
      by_cases htr : cnt + 1 = level
      · rw [if_pos htr]
        obtain ⟨st2, hrun2, hinv2, hext2, hid2, -⟩ :=
          emitMeasChain_ok hy hcd level parentId
            (calNodesNLinksColor ctx.legend (splitId.getD 0 "")) iRow hrow
            ctx.measureData.enum st
            (fun p hp => enum_facts ctx.measureData p hp) hinv
        rw [hrun2, okBind]
        set st3 : St := { st2 with selectionArrayIndex := st2.selectionArrayIndex + 1 }
          with hst3
        have hinv3 : Inv cd st3 :=
          ⟨hinv2.idGe, hinv2.mGe, hinv2.facts, hinv2.nodup, hinv2.hierSurj,
           hinv2.measSurj⟩
        have hext3 : StExt st2 st3 :=
          ⟨⟨[], (List.append_nil _).symm⟩, ⟨[], (List.append_nil _).symm⟩,
           le_rfl, le_rfl⟩
        obtain ⟨st4, hrun4, hinv4, hext4, hid4⟩ :=
          ih (cnt + 1) st3 (fun x hx => hls x (by simp [hx])) hinv3
        refine ⟨st4, hrun4, hinv4, (hext2.trans hext3).trans hext4, ?_⟩
        rw [hid4]
        show st2.idGen = st.idGen
        exact hid2
      · rw [if_neg htr]
        exact ih (cnt + 1) st (fun x hx => hls x (by simp [hx])) hinv
    · rw [if_neg hm]
      exact ih cnt st (fun x hx => hls x (by simp [hx])) hinv

theorem measRows_ok {cd : CatData} (hy : Hyps cd) {ctx : Ctx}
    (hcd : ctx.cd = cd) (splitId : List String) (level parentId : Nat)
    (hlev : level ≤ cd.categories.length) :
    ∀ (rowsList : List Nat) (st : St),
      (∀ r ∈ rowsList, r < rowsOf cd) →
      Inv cd st →
      ∃ st2, measRows ctx splitId level parentId rowsList st = .ok st2 ∧
        Inv cd st2 ∧ StExt st st2 := by
  intro rowsList
  induction rowsList with
  | nil => intro st _ hinv; exact ⟨st, rfl, hinv, StExt.refl st⟩
  | cons r rest ih =>
    intro st hrows hinv
    obtain ⟨st2, hrun2, hinv2, hext2, -⟩ :=
      measRowLvls_ok hy hcd splitId level parentId r (hrows r (by simp)) hlev
        (List.range level) 0 st (fun l hl => List.mem_range.1 hl) hinv
    simp only [measRows, hrun2, okBind]
    obtain ⟨st3, hrun3, hinv3, hext3⟩ :=
      ih st2 (fun x hx => hrows x (by simp [hx])) hinv2
    exact ⟨st3, hrun3, hinv3, hext2.trans hext3⟩

/-! ## Success of the hierarchy-branch pieces -/

theorem nodeColorGo_ok (splitId0 : String) (element : CV) (s : String)
    (h : cvToStringE element = .ok s) :
    ∀ lg : List LegendPt, ∃ c, nodeColorGo splitId0 element lg = .ok c := by
  intro lg
  induction lg with
  | nil => exact ⟨"#000", rfl⟩
  | cons e r ih =>
    by_cases h1 : e.category = splitId0
    · exact ⟨e.color, by simp only [nodeColorGo, if_pos h1]⟩
    · by_cases h2 : e.category = s
      · refine ⟨e.color, ?_⟩
        simp only [nodeColorGo, if_neg h1, h, okBind, if_pos h2]
      · obtain ⟨c, hc⟩ := ih
        refine ⟨c, ?_⟩
        simp only [nodeColorGo, if_neg h1, h, okBind, if_neg h2, hc]

theorem nodeColor_ok (legend : List LegendPt) (splitId0 : String) (element : CV)
    (s : String) (h : cvToStringE element = .ok s) :
    ∃ c, nodeColor legend splitId0 element = .ok c := by
  cases legend with
  | nil => exact ⟨none, rfl⟩
  | cons e r =>
    obtain ⟨c, hc⟩ := nodeColorGo_ok splitId0 element s h (e :: r)
    exact ⟨some c, by simp only [nodeColor, hc, okBind]⟩

theorem keyInv_join_ne_empty (comps : List String) (hc : comps ≠ [])
    (hprops : ∀ c ∈ comps, noStar c ∧ c ≠ "") : joinStars comps ≠ "" := by
  match comps, hc with
  | [c], _ => exact (hprops c (by simp)).2
  | c :: d :: r, _ => exact joinStars_long_ne_empty _ (by simp)

theorem uniqueElems_root (ctx : Ctx) :
    uniqueElems ctx "" 0 = .ok (filterDistinct (ctx.cats.getD 0 default).values) := by
  simp [uniqueElems]

theorem uniqueElems_key {cd : CatData} (hy : Hyps cd) {ctx : Ctx}
    (hcd : ctx.cd = cd) (htv : ctx.totalValues = rowsOf cd)
    (comps : List String) (level : Nat) (hc : comps ≠ [])
    (hclen : comps.length = level)
    (hprops : ∀ c ∈ comps, noStar c ∧ c ≠ "")
    (hlev : level ≤ cd.categories.length) :
    uniqueElems ctx (joinStars comps) level
      = .ok (filterDistinct (specFiltered cd comps level
          (List.range (rowsOf cd)))) := by
  have hlev1 : 1 ≤ level := by
    rw [← hclen]
    exact List.length_pos.2 hc
  unfold uniqueElems
  rw [if_pos (keyInv_join_ne_empty comps hc hprops)]
  rw [jsSplitStars_joinStars comps hc (fun c h => (hprops c h).1)]
  rw [htv]
  rw [filterRows_ok ctx cd hcd comps level hlev1 (List.range (rowsOf cd)) []
    (fun r hr l hl => hyps_cellsOK hy l (lt_of_lt_of_le hl hlev) r
      (List.mem_range.1 hr))]
  simp

theorem specFiltered_mem {cd : CatData} {comps : List String} {level : Nat}
    {rows : Nat} {e : CV}
    (h : e ∈ specFiltered cd comps level (List.range rows)) :
    ∃ r, r < rows ∧
      e = (cd.categories.getD level default).values.getD r CV.undef := by
  unfold specFiltered at h
  obtain ⟨r, hr, hre⟩ := List.mem_filterMap.1 h
  refine ⟨r, List.mem_range.1 hr, ?_⟩
  by_cases hm : rowMatchesL cd comps level r = true
  · rw [if_pos hm] at hre
    exact (Option.some_inj.1 hre).symm
  · rw [if_neg hm] at hre
    cases hre

/-! ## Pushing one hierarchy node preserves the invariant -/

@[simp] theorem pushHier_nodes (st : St) (n : Node) (l : Link) :
    (pushHier st n l).nodes = st.nodes ++ [n] := rfl

@[simp] theorem pushHier_links (st : St) (n : Node) (l : Link) :
    (pushHier st n l).links = st.links ++ [l] := rfl

@[simp] theorem pushHier_idGen (st : St) (n : Node) (l : Link) :
    (pushHier st n l).idGen = st.idGen + 1 := rfl

@[simp] theorem pushHier_measureIdGen (st : St) (n : Node) (l : Link) :
    (pushHier st n l).measureIdGen = st.measureIdGen := rfl

theorem pushHier_ext (st : St) (n : Node) (l : Link) :
    StExt st (pushHier st n l) :=
  ⟨⟨[n], rfl⟩, ⟨[l], rfl⟩, Nat.le_succ _, le_rfl⟩

theorem pushHier_inv {cd : CatData} {st : St} (hinv : Inv cd st) {n : Node}
    {l : Link} (hnid : n.nid = st.idGen)
    (hfact : HierFact cd (pushHier st n l) n) : Inv cd (pushHier st n l) := by
  have hmge := hinv.mGe
  have hidge := hinv.idGe
  refine ⟨Nat.le_succ_of_le hinv.idGe, hinv.mGe, ?_, ?_, ?_, ?_⟩
  · intro m hm
    rw [pushHier_nodes] at hm
    rcases List.mem_append.1 hm with hm | hm
    · rcases hinv.facts m hm with h | h | h
      · exact Or.inl h
      · exact Or.inr (Or.inl (hierFact_mono h (pushHier_ext st n l)))
      · exact Or.inr (Or.inr (measFact_mono h (pushHier_ext st n l)))
    · rcases List.mem_singleton.1 hm with rfl
      exact Or.inr (Or.inl hfact)
  · intro hbound
    rw [pushHier_idGen] at hbound
    have hold := hinv.nodup (by omega)
    rw [pushHier_nodes, List.map_append, List.nodup_append]
    refine ⟨hold, List.nodup_singleton _, ?_⟩
    intro x hx hx2
    simp only [List.map_cons, List.map_nil, List.mem_singleton] at hx2
    subst hx2
    simp only [List.mem_map] at hx
    obtain ⟨m, hmem, hmid⟩ := hx
    rcases hinv.facts m hmem with h | h | h
    · rw [h.1] at hmid
      rw [← hmid] at hnid
      omega
    · have h2 := h.2.1
      rw [hmid, hnid] at h2
      omega
    · have h2 := h.1
      rw [hmid, hnid] at h2
      omega
  · intro k h1 h2
    rw [pushHier_idGen] at h2
    rcases Nat.lt_or_ge k st.idGen with hk | hk
    · obtain ⟨m, hmem, hmid⟩ := hinv.hierSurj k h1 hk
      exact ⟨m, by rw [pushHier_nodes]; exact List.mem_append_left _ hmem, hmid⟩
    · have hke : k = st.idGen := by omega
      subst hke
      exact ⟨n, by rw [pushHier_nodes]; exact List.mem_append_right _ (by simp),
        hnid⟩
  · intro k h1 h2
    rw [pushHier_measureIdGen] at h2
    obtain ⟨m, hmem, hmid⟩ := hinv.measSurj k h1 h2
    exact ⟨m, by rw [pushHier_nodes]; exact List.mem_append_left _ hmem, hmid⟩

/-! ## The master lemma for `goElems` and `calNodesNLinks` -/

theorem goElems_master {cd : CatData} (hy : Hyps cd) {ctx : Ctx}
    (hcd : ctx.cd = cd) (htv : ctx.totalValues = rowsOf cd)
    (lvlCol : CatCol) (combinedID : String) (level : Nat)
    (comps : List String) (splitId : List String)
    (hkey : KeyInv cd combinedID level comps)
    (hlev : level < cd.categories.length)
    (hlvl : cd.categories.getD level default = lvlCol)
    (f : String → Nat → JNum → St → Except Unit St)
    (hf : ∀ cid2 comps2 pid2 psum2 st,
      KeyInv cd cid2 (level + 1) comps2 →
      Inv cd st → ParentW st pid2 psum2 →
      ∃ st2, f cid2 pid2 psum2 st = .ok st2 ∧ Inv cd st2 ∧ StExt st st2) :
    ∀ (elems : List CV) (pid : Nat) (psum : JNum) (st : St),
      (∀ e ∈ elems, e ∈ (cd.categories.getD level default).values) →
      Inv cd st → ParentW st pid psum →
      ∃ st2, goElems ctx lvlCol combinedID level pid psum splitId f
          elems st = .ok st2 ∧ Inv cd st2 ∧ StExt st st2 := by
  intro elems
  induction elems with
  | nil => intro pid psum st _ hinv _; exact ⟨st, rfl, hinv, StExt.refl st⟩
  | cons e rest ih =>
    intro pid psum st hmem hinv hpw
    obtain ⟨s, he, hstar, hne⟩ := hyps_value_clean hy hlev (hmem e (by simp))
    subst he
    obtain ⟨c, hc⟩ := nodeColor_ok ctx.legend (splitId.getD 0 "") (CV.str s) s rfl
    have hcompsinfo : (comps ++ [s]) ≠ [] ∧ (comps ++ [s]).length = level + 1 ∧
        (∀ x ∈ comps ++ [s], noStar x ∧ x ≠ "") := by
      rcases hkey with ⟨hl0, -, hcomps0⟩ | ⟨-, hclen, -, hprops, -⟩
      · subst hcomps0
        refine ⟨by simp, by simp [hl0], ?_⟩
        intro x hx
        rcases List.mem_singleton.1 (by simpa using hx) with rfl
        exact ⟨hstar, hne⟩
      · refine ⟨by simp, by simp [hclen], ?_⟩
        intro x hx
        rcases List.mem_append.1 hx with hx | hx
        · exact hprops x hx
        · rcases List.mem_singleton.1 hx with rfl
          exact ⟨hstar, hne⟩
    have hcid : newCombinedIDE combinedID level (CV.str s)
        = .ok (joinStars (comps ++ [s])) := by
      rcases hkey with ⟨hl0, -, hcomps0⟩ | ⟨hcne, hclen, hcidj, -, -⟩
      · subst hcomps0
        unfold newCombinedIDE
        rw [if_pos hl0]
        rfl
      · unfold newCombinedIDE
        rw [if_neg (by rw [← hclen]; exact fun h => hcne (List.length_eq_zero.1 h))]
        rw [joinStars_append_last comps s hcne, hcidj]
        rfl
    have hnone2 : joinStars (comps ++ [s]) ≠ "none" := by
      rcases hkey with ⟨hl0, -, hcomps0⟩ | ⟨hcne, -, -, -, -⟩
      · subst hcomps0
        intro heq
        have hs : s = "none" := by rw [← joinStars_singleton s]; exact heq
        have hm0 := hmem (CV.str s) (by simp)
        rw [hl0] at hm0
        obtain ⟨-, -, -, -, -, -, hnone, -⟩ := hy
        exact hnone _ hm0 (by rw [hs])
      · refine joinStars_long_ne_none _ ?_
        have := List.length_pos.2 hcne
        simp
        omega
    have hkey2 : KeyInv cd (joinStars (comps ++ [s])) (level + 1) (comps ++ [s]) :=
      Or.inr ⟨hcompsinfo.1, hcompsinfo.2.1, rfl, hcompsinfo.2.2, hnone2⟩
    have hagg : calAggregate ctx.cd (joinStars (comps ++ [s])) ctx.totalValues
        = .ok (specAgg cd (comps ++ [s]) (rowsOf cd)) := by
      rw [hcd, htv]
      refine calAggregate_eq_specAgg cd (comps ++ [s]) (rowsOf cd)
        hcompsinfo.1 (fun x hx => (hcompsinfo.2.2 x hx).1) hnone2
        (fun l hl r hr => hyps_cellsOK hy l ?_ r hr) (hyps_meas0OK hy)
      rw [hcompsinfo.2.1] at hl
      omega
    set leads := specAgg cd (comps ++ [s]) (rowsOf cd) with hleads
    set nd := hierNode lvlCol level (CV.str s) (joinStars (comps ++ [s]))
      leads psum c st.idGen with hnd
    set lk := hierLink pid st.idGen leads with hlk
    have hndnid : nd.nid = st.idGen := rfl
    obtain ⟨p, hpmem, hpnid, hpsum⟩ := hpw
    have hfact : HierFact cd (pushHier st nd lk) nd := by
      refine ⟨hinv.idGe, by rw [hndnid, pushHier_idGen]; omega,
        comps ++ [s], hcompsinfo.1, ?_, fun x hx => (hcompsinfo.2.2 x hx).1,
        rfl, ?_, ?_, rfl, ?_⟩
      · rw [hcompsinfo.2.1]; omega
      · show level + 1 = (comps ++ [s]).length
        rw [hcompsinfo.2.1]
      · show lvlCol.displayName
          = (cd.categories.getD ((comps ++ [s]).length - 1) default).displayName
        rw [hcompsinfo.2.1]
        simp only [Nat.add_sub_cancel]
        rw [hlvl]
      · refine ⟨p, ?_, lk, ?_, ?_, rfl, ?_⟩
        · rw [pushHier_nodes]; exact List.mem_append_left _ hpmem
        · rw [pushHier_links]; exact List.mem_append_right _ (by simp)
        · rw [hpnid]; rfl
        · show jdivQ leads psum = jdivQ leads p.numberOfLeads.toJNum
          rw [hpsum]
    have hinv2 : Inv cd (pushHier st nd lk) := pushHier_inv hinv hndnid hfact
    have hpw2 : ParentW (pushHier st nd lk) st.idGen leads := by
      refine ⟨nd, ?_, hndnid, by simp [hnd, hierNode]⟩
      rw [pushHier_nodes]
      exact List.mem_append_right _ (by simp)
    obtain ⟨st3, hf3, hinv3, hext3⟩ :=
      hf (joinStars (comps ++ [s])) (comps ++ [s]) st.idGen leads
        (pushHier st nd lk) hkey2 hinv2 hpw2
    have hext2 : StExt st (pushHier st nd lk) := pushHier_ext st nd lk
    obtain ⟨st4, h4, hinv4, hext4⟩ :=
      ih pid psum st3 (fun x hx => hmem x (by simp [hx])) hinv3
        (parentW_mono ⟨p, hpmem, hpnid, hpsum⟩ ((hext2.trans hext3)))
    refine ⟨st4, ?_, hinv4, (hext2.trans hext3).trans hext4⟩
    simp only [goElems, hc, okBind, hcid, hagg, ← hleads, ← hnd, ← hlk, hf3, h4]

theorem calNodesNLinks_master {cd : CatData} (hy : Hyps cd) {ctx : Ctx}
    (hcd : ctx.cd = cd) (htv : ctx.totalValues = rowsOf cd) :
    ∀ (remCats : List CatCol) (level : Nat) (combinedID : String)
      (comps : List String) (parentId : Nat) (parentSum : JNum) (st : St),
      remCats = cd.categories.drop level →
      level ≤ cd.categories.length →
      KeyInv cd combinedID level comps →
      Inv cd st → ParentW st parentId parentSum →
      ∃ st2, calNodesNLinks ctx remCats combinedID level parentId parentSum st
          = .ok st2 ∧ Inv cd st2 ∧ StExt st st2 := by
  have hcats : ctx.cats = cd.categories := by rw [← hcd]; rfl
  intro remCats
  induction remCats with
  | nil =>
    intro level cid comps pid psum st hrem hle hkey hinv hpw
    simp only [calNodesNLinks]
    by_cases hcond : 1 < ctx.measureData.length ∧ 1 < ctx.measureDataLengthCount
    · rw [if_pos hcond, htv]
      exact measRows_ok hy hcd (jsSplitStars cid) level pid hle
        (List.range (rowsOf cd)) st (fun r hr => List.mem_range.1 hr) hinv
    · rw [if_neg hcond]
      exact ⟨st, rfl, hinv, StExt.refl st⟩
  | cons lvlCol rest ih =>
    intro level cid comps pid psum st hrem hle hkey hinv hpw
    have hlev : level < cd.categories.length := by
      by_contra h
      push_neg at h
      rw [List.drop_eq_nil_of_le h] at hrem
      exact List.cons_ne_nil _ _ hrem
    have hget : cd.categories[level]? = some lvlCol := by
      have h0 : (cd.categories.drop level)[0]? = some lvlCol := by
        rw [← hrem]; simp
      rw [List.getElem?_drop] at h0
      simpa using h0
    have hgetd : cd.categories.getD level default = lvlCol := by
      rw [List.getD_eq_getElem?_getD, hget]; rfl
    have hrest : rest = cd.categories.drop (level + 1) := by
      have h1 : List.drop 1 (List.drop level cd.categories)
          = List.drop (level + 1) cd.categories := List.drop_drop 1 level cd.categories
      rw [← hrem] at h1
      simpa using h1
    have hf : ∀ cid2 comps2 pid2 psum2 st',
        KeyInv cd cid2 (level + 1) comps2 →
        Inv cd st' → ParentW st' pid2 psum2 →
        ∃ st2, calNodesNLinks ctx rest cid2 (level + 1) pid2 psum2 st'
            = .ok st2 ∧ Inv cd st2 ∧ StExt st' st2 := by
      intro cid2 comps2 pid2 psum2 st' hkey2 hinv2 hpw2
      exact ih (level + 1) cid2 comps2 pid2 psum2 st' hrest (by omega) hkey2
        hinv2 hpw2
    rcases hkey with ⟨hl0, hcid0, hcomps0⟩ | ⟨hcne, hclen, hcidj, hprops, hcnone⟩
    · -- the root call
      subst hl0
      subst hcid0
      have hkey0 : KeyInv cd "" 0 comps := Or.inl ⟨rfl, rfl, hcomps0⟩
      have hmemall : ∀ e ∈ filterDistinct (ctx.cats.getD 0 default).values,
          e ∈ (cd.categories.getD 0 default).values := by
        intro e he2
        rw [hcats] at he2
        exact mem_filterDistinct.1 he2
      obtain ⟨st2, hrun, hinv2, hext2⟩ :=
        goElems_master hy hcd htv lvlCol "" 0 comps (jsSplitStars "")
          hkey0 hlev hgetd
          (fun cid2 pid2 psum2 st' =>
            calNodesNLinks ctx rest cid2 (0 + 1) pid2 psum2 st')
          (fun cid2 comps2 pid2 psum2 st' => hf cid2 comps2 pid2 psum2 st')
          (filterDistinct (ctx.cats.getD 0 default).values) pid psum st
          hmemall hinv hpw
      refine ⟨st2, ?_, hinv2, hext2⟩
      simp only [calNodesNLinks, uniqueElems_root, okBind]
      exact hrun
    · -- a keyed call
      subst hcidj
      have huniq := uniqueElems_key hy hcd htv comps level hcne hclen hprops hle
      have hmemall : ∀ e ∈ filterDistinct (specFiltered cd comps level
          (List.range (rowsOf cd))),
          e ∈ (cd.categories.getD level default).values := by
        intro e he2
        obtain ⟨r, hr, hre⟩ := specFiltered_mem (mem_filterDistinct.1 he2)
        subst hre
        refine List.getD_mem _ _ _ ?_
        obtain ⟨-, -, -, hclens, -, -, -, -⟩ := hy
        rw [hclens _ (List.getD_mem _ _ _ hlev)]
        exact hr
      obtain ⟨st2, hrun, hinv2, hext2⟩ :=
        goElems_master hy hcd htv lvlCol (joinStars comps) level comps
          (jsSplitStars (joinStars comps))
          (Or.inr ⟨hcne, hclen, rfl, hprops, hcnone⟩)
          hlev hgetd
          (fun cid2 pid2 psum2 st' =>
            calNodesNLinks ctx rest cid2 (level + 1) pid2 psum2 st')
          hf
          (filterDistinct (specFiltered cd comps level (List.range (rowsOf cd))))
          pid psum st hmemall hinv hpw
      refine ⟨st2, ?_, hinv2, hext2⟩
      simp only [calNodesNLinks, huniq, okBind]
      exact hrun

/-! ## `addSelection` only touches selection arrays -/

theorem set_self_of_getElem? {α : Type} (l : List α) :
    ∀ (i : Nat) (a : α), l[i]? = some a → l.set i a = l := by
  induction l with
  | nil => intro i a h; simp at h
  | cons x xs ih =>
      intro i a h
      cases i with
      | zero =>
          simp only [List.getElem?_cons_zero, Option.some.injEq] at h
          subst h; rfl
      | succ i =>
          simp only [List.getElem?_cons_succ] at h
          simp only [List.set_cons_succ, ih i a h]

theorem skel_pushSelAt (nodes : List Node) (i : Nat) (t : SelT) :
    (pushSelAt nodes i t).map Node.skel = nodes.map Node.skel := by
  unfold pushSelAt
  cases h : nodes[i]? with
  | none => rfl
  | some n =>
      rw [List.map_set]
      have hskel : Node.skel { n with selectionId := n.selectionId.push t }
          = Node.skel n := rfl
      rw [hskel]
      apply set_self_of_getElem?
      rw [List.getElem?_map, h]
      rfl

theorem skel_addSelLoop1 (dispName : String) (selection : List SelT) :
    ∀ (fuel i j : Nat) (nodes : List Node),
      (addSelLoop1 dispName selection fuel i j nodes).map Node.skel
        = nodes.map Node.skel := by
  intro fuel
  induction fuel with
  | zero => intro i j nodes; rfl
  | succ fuel ih =>
      intro i j nodes
      unfold addSelLoop1
      by_cases h1 : i < nodes.length
      · rw [if_pos h1]
        by_cases h2 : (nodes.getD i default).program = dispName
        · rw [if_pos h2, ih, skel_pushSelAt]
        · rw [if_neg h2, ih]
      · rw [if_neg h1]

theorem skel_addSelB2While (dispName : String) (tk : SelT) (nIdx : Nat) :
    ∀ (fuel k : Nat) (nodes nodes2 : List Node),
      addSelB2While dispName tk nIdx fuel k nodes = .ok nodes2 →
      nodes2.map Node.skel = nodes.map Node.skel := by
  intro fuel
  induction fuel with
  | zero =>
      intro k nodes nodes2 h
      cases h; rfl
  | succ fuel ih =>
      intro k nodes nodes2 h
      simp only [addSelB2While] at h
      cases hg : nodes[k+1]? with
      | none => simp only [hg] at h; cases h
      | some nd =>
          simp only [hg] at h
          by_cases hp : nd.program = dispName
          · rw [if_pos hp] at h; cases h; rfl
          · rw [if_neg hp] at h
            by_cases hk : k + 1 = (pushSelAt nodes nIdx tk).length - 1
            · rw [if_pos hk] at h; cases h
              exact skel_pushSelAt _ _ _
            · rw [if_neg hk] at h
              rw [ih _ _ _ h, skel_pushSelAt]

theorem skel_addSelB2Outer (dispName : String) (selection : List SelT) :
    ∀ (fuel n y : Nat) (nodes nodes2 : List Node),
      addSelB2Outer dispName selection fuel n y nodes = .ok nodes2 →
      nodes2.map Node.skel = nodes.map Node.skel := by
  intro fuel
  induction fuel with
  | zero => intro n y nodes nodes2 h; cases h; rfl
  | succ fuel ih =>
      intro n y nodes nodes2 h
      simp only [addSelB2Outer] at h
      by_cases h1 : n < nodes.length
      · rw [if_pos h1] at h
        by_cases h2 : (nodes.getD n default).program = dispName
        · rw [if_pos h2] at h
          cases hw : addSelB2While dispName (selGet selection y) n
              nodes.length n nodes with
          | error e => rw [hw] at h; cases h
          | ok m =>
              rw [hw, okBind] at h
              rw [ih _ _ _ _ h, skel_addSelB2While _ _ _ _ _ _ _ hw]
        · rw [if_neg h2] at h
          exact ih _ _ _ _ h
      · rw [if_neg h1] at h; cases h; rfl

theorem skel_catLen1WhileA (deepest : String) (iIdx : Nat) :
    ∀ (fuel k : Nat) (nodes nodes2 : List Node),
      catLen1WhileA deepest iIdx fuel k nodes = .ok nodes2 →
      nodes2.map Node.skel = nodes.map Node.skel := by
  intro fuel
  induction fuel with
  | zero => intro k nodes nodes2 h; cases h; rfl
  | succ fuel ih =>
      intro k nodes nodes2 h
      simp only [catLen1WhileA] at h
      cases hg : nodes[k+1]? with
      | none => simp only [hg] at h; cases h
      | some nd =>
          simp only [hg] at h
          by_cases hp : nd.program = deepest
          · rw [if_pos hp] at h
            by_cases hk : k + 1 = (pushSelAt nodes iIdx nd.selectionId).length - 1
            · rw [if_pos hk] at h; cases h
              exact skel_pushSelAt _ _ _
            · rw [if_neg hk] at h
              rw [ih _ _ _ h, skel_pushSelAt]
          · rw [if_neg hp] at h; cases h; rfl

theorem skel_selWhileSkip (stopName pickName : String) (iIdx : Nat) :
    ∀ (fuel k : Nat) (nodes nodes2 : List Node),
      selWhileSkip stopName pickName iIdx fuel k nodes = .ok nodes2 →
      nodes2.map Node.skel = nodes.map Node.skel := by
  intro fuel
  induction fuel with
  | zero => intro k nodes nodes2 h; cases h; rfl
  | succ fuel ih =>
      intro k nodes nodes2 h
      simp only [selWhileSkip] at h
      cases hg : nodes[k+1]? with
      | none => simp only [hg] at h; cases h
      | some nd =>
          simp only [hg] at h
          by_cases hp : nd.program = stopName
          · rw [if_pos hp] at h; cases h; rfl
          · rw [if_neg hp] at h
            by_cases hp2 : nd.program = pickName
            · rw [if_pos hp2] at h
              by_cases hk : k + 1
                  = (pushSelAt nodes iIdx nd.selectionId).length - 1
              · rw [if_pos hk] at h; cases h
                exact skel_pushSelAt _ _ _
              · rw [if_neg hk] at h
                rw [ih _ _ _ h, skel_pushSelAt]
            · rw [if_neg hp2] at h
              by_cases hk : k + 1 = nodes.length - 1
              · rw [if_pos hk] at h; cases h; rfl
              · rw [if_neg hk] at h
                exact ih _ _ _ h

theorem skel_selOuterA (outerName deepest : String) :
    ∀ (fuel i : Nat) (nodes nodes2 : List Node),
      selOuterA outerName deepest fuel i nodes = .ok nodes2 →
      nodes2.map Node.skel = nodes.map Node.skel := by
  intro fuel
  induction fuel with
  | zero => intro i nodes nodes2 h; cases h; rfl
  | succ fuel ih =>
      intro i nodes nodes2 h
      simp only [selOuterA] at h
      by_cases h1 : i < nodes.length
      · rw [if_pos h1] at h
        by_cases h2 : (nodes.getD i default).program = outerName
        · rw [if_pos h2] at h
          cases hw : catLen1WhileA deepest i nodes.length i nodes with
          | error e => rw [hw] at h; cases h
          | ok m =>
              rw [hw, okBind] at h
              rw [ih _ _ _ h, skel_catLen1WhileA _ _ _ _ _ _ hw]
        · rw [if_neg h2] at h
          exact ih _ _ _ h
      · rw [if_neg h1] at h; cases h; rfl

theorem skel_selOuterB (outerName stopName pickName : String) :
    ∀ (fuel i : Nat) (nodes nodes2 : List Node),
      selOuterB outerName stopName pickName fuel i nodes = .ok nodes2 →
      nodes2.map Node.skel = nodes.map Node.skel := by
  intro fuel
  induction fuel with
  | zero => intro i nodes nodes2 h; cases h; rfl
  | succ fuel ih =>
      intro i nodes nodes2 h
      simp only [selOuterB] at h
      by_cases h1 : i < nodes.length
      · rw [if_pos h1] at h
        by_cases h2 : (nodes.getD i default).program = outerName
        · rw [if_pos h2] at h
          cases hw : selWhileSkip stopName pickName i nodes.length i nodes with
          | error e => rw [hw] at h; cases h
          | ok m =>
              rw [hw, okBind] at h
              rw [ih _ _ _ h, skel_selWhileSkip _ _ _ _ _ _ _ hw]
        · rw [if_neg h2] at h
          exact ih _ _ _ h
      · rw [if_neg h1] at h; cases h; rfl

theorem skel_catLen1 (ctx : Ctx) (catData : List CatCol)
    (catLen measureDataLen : Nat) (nodes nodes2 : List Node)
    (h : catLen1 ctx catData catLen measureDataLen nodes = .ok nodes2) :
    nodes2.map Node.skel = nodes.map Node.skel := by
  unfold catLen1 at h
  by_cases hc : measureDataLen = 1 ∨ ctx.measureDataLengthCount ≤ 1
  · rw [if_pos hc] at h
    exact skel_selOuterA _ _ _ _ _ _ h
  · rw [if_neg hc] at h
    exact skel_selOuterB _ _ _ _ _ _ _ h

theorem skel_catLen2 (catData : List CatCol) (catLen : Nat)
    (nodes nodes2 : List Node)
    (h : catLen2 catData catLen nodes = .ok nodes2) :
    nodes2.map Node.skel = nodes.map Node.skel :=
  skel_selOuterB _ _ _ _ _ _ _ h

theorem skel_catLen3 (catData : List CatCol) (catLen : Nat)
    (nodes nodes2 : List Node)
    (h : catLen3 catData catLen nodes = .ok nodes2) :
    nodes2.map Node.skel = nodes.map Node.skel :=
  skel_selOuterB _ _ _ _ _ _ _ h

theorem skel_addSelPass1 (ctx : Ctx) (catData : List CatCol)
    (nodes nodes2 : List Node)
    (h : addSelPass1 ctx catData nodes = .ok nodes2) :
    nodes2.map Node.skel = nodes.map Node.skel := by
  unfold addSelPass1 at h
  by_cases hc : ctx.measureData.length = 1 ∨ ctx.measureDataLengthCount ≤ 1
  · rw [if_pos hc] at h; cases h
    exact skel_addSelLoop1 _ _ _ _ _ _
  · rw [if_neg hc] at h
    exact skel_addSelB2Outer _ _ _ _ _ _ _ h

theorem skel_catLen1Guard (ctx : Ctx) (catData : List CatCol)
    (nodes nodes2 : List Node)
    (h : catLen1Guard ctx catData nodes = .ok nodes2) :
    nodes2.map Node.skel = nodes.map Node.skel := by
  unfold catLen1Guard at h
  by_cases hc : 1 < catData.length
  · rw [if_pos hc] at h
    exact skel_catLen1 _ _ _ _ _ _ h
  · rw [if_neg hc] at h; cases h; rfl

theorem skel_catLen2Guard (catData : List CatCol)
    (nodes nodes2 : List Node)
    (h : catLen2Guard catData nodes = .ok nodes2) :
    nodes2.map Node.skel = nodes.map Node.skel := by
  unfold catLen2Guard at h
  by_cases hc : 2 < catData.length
  · rw [if_pos hc] at h
    exact skel_catLen2 _ _ _ _ h
  · rw [if_neg hc] at h; cases h; rfl

theorem skel_catLen3Guard (catData : List CatCol)
    (nodes nodes2 : List Node)
    (h : catLen3Guard catData nodes = .ok nodes2) :
    nodes2.map Node.skel = nodes.map Node.skel := by
  unfold catLen3Guard at h
  by_cases hc : 3 < catData.length
  · rw [if_pos hc] at h
    exact skel_catLen3 _ _ _ _ h
  · rw [if_neg hc] at h; cases h; rfl

/-- The selection pass leaves everything but the selection arrays intact. -/
theorem addSelection_skel (ctx : Ctx) (catData : List CatCol) (st st2 : St)
    (h : addSelection ctx catData st = .ok st2) :
    st2.nodes.map Node.skel = st.nodes.map Node.skel ∧
    st2.links = st.links ∧ st2.idGen = st.idGen ∧
    st2.measureIdGen = st.measureIdGen := by
  unfold addSelection at h
  cases h1 : addSelPass1 ctx catData st.nodes with
  | error e => rw [h1] at h; cases h
  | ok n1 =>
      rw [h1, okBind] at h
      cases h2 : catLen1Guard ctx catData n1 with
      | error e => rw [h2] at h; cases h
      | ok n2 =>
          rw [h2, okBind] at h
          cases h3 : catLen2Guard catData n2 with
          | error e => rw [h3] at h; cases h
          | ok n3 =>
              rw [h3, okBind] at h
              cases h4 : catLen3Guard catData n3 with
              | error e => rw [h4] at h; cases h
              | ok n4 =>
                  rw [h4, okBind] at h
                  cases h
                  refine ⟨?_, rfl, rfl, rfl⟩
                  rw [skel_catLen3Guard _ _ _ h4, skel_catLen2Guard _ _ _ h3,
                    skel_catLen1Guard _ _ _ _ h2, skel_addSelPass1 _ _ _ _ h1]

/-! ## The converter transports the build invariant -/

theorem mvToStringE_ok {x : MV} (h : mvNotNull x = true) :
    ∃ s, mvToStringE x = .ok s := by
  cases x with
  | null => simp [mvNotNull] at h
  | undef => simp [mvNotNull] at h
  | num n => exact ⟨toString n, rfl⟩
  | nonnum s => exact ⟨s, rfl⟩

theorem buildLegend_ok (palette : String → String) :
    ∀ l : List CV, (∀ v ∈ l, ∃ s, v = CV.str s) →
      ∃ lg, buildLegend palette l = .ok lg := by
  intro l
  induction l with
  | nil => exact fun _ => ⟨[], rfl⟩
  | cons v rest ih =>
      intro h
      obtain ⟨s, hs⟩ := h v (by simp)
      obtain ⟨lg, hlg⟩ := ih (fun w hw => h w (by simp [hw]))
      subst hs
      refine ⟨{ category := s, color := palette s } :: lg, ?_⟩
      simp [buildLegend, cvToStringE, hlg]

theorem rootNameE_ok {cd : CatData} (hy : Hyps cd) (rc : Nat)
    (lbl txt : String) : ∃ nm, rootNameE cd rc lbl txt = .ok nm := by
  obtain ⟨-, hvne, hrows, -, hmlen, -, -, hmnn⟩ := hy
  have hvpos : 0 < cd.values.length := List.length_pos.2 hvne
  have hcol : cd.values.getD (cd.values.length - 1) default ∈ cd.values :=
    List.getD_mem _ _ _ (by omega)
  have hcollen : (cd.values.getD (cd.values.length - 1) default).values.length
      = rowsOf cd := hmlen _ hcol
  unfold rootNameE
  by_cases h1 : rc = 1
  · rw [if_pos h1]
    by_cases h2 : lbl = "First"
    · rw [if_pos h2]
      have hmem :
          (cd.values.getD (cd.values.length - 1) default).values.getD 0 MV.undef
          ∈ (cd.values.getD (cd.values.length - 1) default).values :=
        List.getD_mem _ _ _ (by rw [hcollen]; omega)
      obtain ⟨s, hs⟩ := mvToStringE_ok (hmnn _ hcol _ hmem)
      exact ⟨CV.str s, by simp only [hs, okBind]⟩
    · rw [if_neg h2]
      by_cases h3 : lbl = "Last"
      · rw [if_pos h3]
        have hmem :
            (cd.values.getD (cd.values.length - 1) default).values.getD
              ((cd.values.getD (cd.values.length - 1) default).values.length - 1)
              MV.undef
            ∈ (cd.values.getD (cd.values.length - 1) default).values :=
          List.getD_mem _ _ _ (by rw [hcollen]; omega)
        obtain ⟨s, hs⟩ := mvToStringE_ok (hmnn _ hcol _ hmem)
        exact ⟨CV.str s, by simp only [hs, okBind]⟩
      · rw [if_neg h3]
        exact ⟨CV.null, rfl⟩
  · rw [if_neg h1]
    exact ⟨CV.str txt, rfl⟩

theorem rootFact_mkRootNode (cd : CatData) (rs : RootSettings) (rootName : CV) :
    RootFact cd (mkRootNode cd rs (specAggAll cd (rowsOf cd)) rootName) :=
  ⟨rfl, rfl, rfl, rfl⟩

theorem inv_mkSt0 (cd : CatData) (rs : RootSettings) (rootName : CV)
    (rootLinkVal : JNum) :
    Inv cd (mkSt0 cd rs (specAggAll cd (rowsOf cd)) rootName rootLinkVal) := by
  refine ⟨le_rfl, le_rfl, ?_, ?_, ?_, ?_⟩
  · intro n hn
    simp only [mkSt0, List.mem_singleton] at hn
    subst hn
    exact Or.inl (rootFact_mkRootNode cd rs rootName)
  · intro _
    simp [mkSt0, mkRootNode]
  · intro k h1 h2
    simp only [mkSt0] at h2
    omega
  · intro k h1 h2
    simp only [mkSt0] at h2
    omega

theorem pw_mkSt0 (cd : CatData) (rs : RootSettings) (rootName : CV)
    (rootLinkVal : JNum) :
    ParentW (mkSt0 cd rs (specAggAll cd (rowsOf cd)) rootName rootLinkVal) 0
      (specAggAll cd (rowsOf cd)) :=
  ⟨mkRootNode cd rs (specAggAll cd (rowsOf cd)) rootName, by simp [mkSt0],
   rfl, toJNum_ofJNum _⟩

theorem converter_core_facts {cd : CatData} (hy : Hyps cd)
    (palette : String → String) (rs : RootSettings) {st2 : St} {ctx : Ctx}
    (hok : converterCore cd palette rs = .ok (st2, ctx)) :
    ∃ st : St, st2.nodes.map Node.skel = st.nodes.map Node.skel ∧
      st2.links = st.links ∧ st2.idGen = st.idGen ∧
      st2.measureIdGen = st.measureIdGen ∧ Inv cd st := by
  have hy2 := hy
  obtain ⟨hcne, hvne, hrows, hclen, hmlen, hclean, hnone0, hmnn⟩ := hy2
  have hloc : localTotalOf cd = rowsOf cd := by
    unfold localTotalOf
    exact hclen _ (List.getD_mem _ _ _ (List.length_pos.2 hcne))
  have hroot : calAggregate cd "none" (localTotalOf cd)
      = .ok (specAggAll cd (rowsOf cd)) := by
    rw [hloc]
    exact calAggregate_none_eq_specAggAll cd (rowsOf cd) (hyps_meas0OK hy)
  obtain ⟨lg, hlg⟩ := buildLegend_ok palette
    (filterDistinct (cd.categories.getD 0 default).values)
    (fun v hv => by
      obtain ⟨s, hs, -, -⟩ := cvClean_elim
        (hclean _ (List.getD_mem _ _ _ (List.length_pos.2 hcne)) _
          (mem_filterDistinct.1 hv))
      exact ⟨s, hs⟩)
  obtain ⟨nm, hnm⟩ := rootNameE_ok hy (rootCountOf cd) rs.rootOption
    (getTailoredTextOrDefault rs.text)
  obtain ⟨stM, hstM, hinvM, hextM⟩ :=
    @calNodesNLinks_master cd hy (mkCtx cd lg) rfl rfl cd.categories 0 "" [] 0
      (specAggAll cd (rowsOf cd))
      (mkSt0 cd rs (specAggAll cd (rowsOf cd)) nm (specAggAll cd (rowsOf cd)))
      (List.drop_zero _).symm (Nat.zero_le _) (Or.inl ⟨rfl, rfl, rfl⟩)
      (inv_mkSt0 cd rs nm _) (pw_mkSt0 cd rs nm _)
  unfold converterCore at hok
  simp only [hroot, okBind, hlg, hnm] at hok
  rw [hstM] at hok
  simp only [okBind] at hok
  cases hsel : addSelection (mkCtx cd lg) cd.categories stM with
  | error e =>
      cases e
      simp only [hsel, errBind] at hok
      cases hok
  | ok n =>
      simp only [hsel, okBind, Except.ok.injEq, Prod.mk.injEq] at hok
      obtain ⟨hn, -⟩ := hok
      subst hn
      obtain ⟨hskel, hlinks, hidg, hmid⟩ := addSelection_skel _ _ _ _ hsel
      exact ⟨stM, hskel, hlinks, hidg, hmid, hinvM⟩

theorem converter_facts {cd : CatData} (hy : Hyps cd)
    (palette : String → String) (rs : RootSettings) {D : JourneyData}
    (hok : converter ⟨some cd.categories, some cd.values⟩ palette rs = .ok D) :
    ∃ st : St, D.nodes.map Node.skel = st.nodes.map Node.skel ∧
      D.links = st.links ∧ Inv cd st := by
  have hy2 := hy
  obtain ⟨hcne, hvne, -, -, -, -, -, -⟩ := hy2
  rw [show converter ⟨some cd.categories, some cd.values⟩ palette rs
      = (if 0 < cd.categories.length ∧ 0 < cd.values.length then do
          let r ← converterCore ⟨cd.categories, cd.values⟩ palette rs
          Except.ok (⟨r.1.nodes, r.1.links⟩ : JourneyData)
        else .ok getDefaultData) from rfl] at hok
  rw [if_pos ⟨List.length_pos.2 hcne, List.length_pos.2 hvne⟩] at hok
  cases hcc : converterCore ⟨cd.categories, cd.values⟩ palette rs with
  | error e =>
      cases e
      simp only [hcc, errBind] at hok
      cases hok
  | ok p =>
      simp only [hcc, okBind, Except.ok.injEq] at hok
      obtain ⟨st, hskel, hlinks, -, -, hinv⟩ :=
        converter_core_facts hy palette rs hcc
      rw [← hok]
      exact ⟨st, hskel, hlinks, hinv⟩

theorem skel_mem_transfer {l1 l2 : List Node}
    (h : l1.map Node.skel = l2.map Node.skel) {n : Node} (hn : n ∈ l1) :
    ∃ m ∈ l2, Node.skel m = Node.skel n := by
  have h2 : Node.skel n ∈ l2.map Node.skel := by
    rw [← h]
    exact List.mem_map_of_mem _ hn
  obtain ⟨m, hm, hms⟩ := List.mem_map.1 h2
  exact ⟨m, hm, hms⟩

theorem skel_eq_fields {m n : Node} (h : Node.skel m = Node.skel n) :
    m.nid = n.nid ∧ m.program = n.program ∧ m.name = n.name ∧
    m.group = n.group ∧ m.numberOfLeads = n.numberOfLeads ∧
    m.percentage = n.percentage ∧ m.description = n.description ∧
    m.color = n.color :=
  ⟨congrArg NodeSkel.nid h, congrArg NodeSkel.program h,
   congrArg NodeSkel.name h, congrArg NodeSkel.group h,
   congrArg NodeSkel.numberOfLeads h, congrArg NodeSkel.percentage h,
   congrArg NodeSkel.description h, congrArg NodeSkel.color h⟩

theorem map_nid_of_skel {l1 l2 : List Node}
    (h : l1.map Node.skel = l2.map Node.skel) :
    l1.map Node.nid = l2.map Node.nid := by
  have h1 : l1.map Node.nid = (l1.map Node.skel).map NodeSkel.nid := by
    rw [List.map_map]
    rfl
  have h2 : l2.map Node.nid = (l2.map Node.skel).map NodeSkel.nid := by
    rw [List.map_map]
    rfl
  rw [h1, h2, h]

/-! ## Positional content of the first selection pass -/

/-- What the single-measure token pass actually does from a given token
counter `j`: each node carrying the deepest display name receives, in node
order, the next row token — positionally, independent of its key. -/
def selPass (dispName : String) (selection : List SelT) :
    Nat → List Node → List Node
  | _, [] => []
  | j, n :: rest =>
      if n.program = dispName then
        { n with selectionId := n.selectionId.push (selGet selection j) }
          :: selPass dispName selection (j+1) rest
      else n :: selPass dispName selection j rest

theorem getD_append_cons (pre : List Node) (x : Node) (suf : List Node) :
    (pre ++ x :: suf).getD pre.length default = x := by
  induction pre with
  | nil => rfl
  | cons p ps ih => simpa using ih

theorem getElem?_append_cons {α : Type} (pre : List α) (x : α) (suf : List α) :
    (pre ++ x :: suf)[pre.length]? = some x := by
  induction pre with
  | nil => simp
  | cons p ps ih => simpa using ih

theorem set_append_cons {α : Type} (pre : List α) (x y : α) (suf : List α) :
    (pre ++ x :: suf).set pre.length y = pre ++ y :: suf := by
  induction pre with
  | nil => rfl
  | cons p ps ih => simp [ih]

theorem pushSelAt_append_cons (pre : List Node) (n : Node) (suf : List Node)
    (t : SelT) :
    pushSelAt (pre ++ n :: suf) pre.length t
      = pre ++ { n with selectionId := n.selectionId.push t } :: suf := by
  simp only [pushSelAt, getElem?_append_cons, set_append_cons]

theorem addSelLoop1_eq_selPass (dispName : String) (selection : List SelT) :
    ∀ (suf pre : List Node) (j fuel : Nat), suf.length ≤ fuel →
      addSelLoop1 dispName selection fuel pre.length j (pre ++ suf)
        = pre ++ selPass dispName selection j suf := by
  intro suf
  induction suf with
  | nil =>
      intro pre j fuel hf
      cases fuel with
      | zero => simp [addSelLoop1, selPass]
      | succ f => simp [addSelLoop1, selPass]
  | cons n rest ih =>
      intro pre j fuel hf
      cases fuel with
      | zero => simp at hf
      | succ f =>
          have hlt : pre.length < (pre ++ n :: rest).length := by
            simp [List.length_append]
          simp only [addSelLoop1]
          rw [if_pos hlt, getD_append_cons]
          by_cases hp : n.program = dispName
          · rw [if_pos hp, pushSelAt_append_cons]
            have he : pre ++
                { n with selectionId :=
                    n.selectionId.push (selGet selection j) } :: rest
                = (pre ++
                    [{ n with selectionId :=
                        n.selectionId.push (selGet selection j) }]) ++ rest := by
              simp
            have hlen : pre.length + 1
                = (pre ++
                    [{ n with selectionId :=
                        n.selectionId.push (selGet selection j) }]).length := by
              simp
            rw [he, hlen, ih _ (j+1) f (by simpa using hf)]
            simp [selPass, hp]
          · rw [if_neg hp]
            have he : pre ++ n :: rest = (pre ++ [n]) ++ rest := by simp
            have hlen : pre.length + 1 = (pre ++ [n]).length := by simp
            rw [he, hlen, ih _ j f (by simpa using hf)]
            simp [selPass, hp]

/-- In the shapes the guards leave untouched (a single category column and a
single flow-stage measure), `addSelection` is exactly the positional token
pass over the nodes after the root. -/
theorem addSelection_single (ctx : Ctx) (catData : List CatCol)
    (hm : ctx.measureData.length = 1 ∨ ctx.measureDataLengthCount ≤ 1)
    (hc : catData.length ≤ 1) (st : St) (r : Node) (rest : List Node)
    (hn : st.nodes = r :: rest) :
    addSelection ctx catData st = .ok { st with nodes :=
      (r :: selPass (catData.getD (catData.length - 1) default).displayName
        ctx.selection 0 rest) } := by
  have hloop := addSelLoop1_eq_selPass
    (catData.getD (catData.length - 1) default).displayName ctx.selection
    rest [r] 0 (r :: rest).length (by simp)
  simp only [List.singleton_append, List.length_singleton] at hloop
  simp only [addSelection, addSelPass1, catLen1Guard, catLen2Guard,
    catLen3Guard, hn]
  rw [if_pos hm, hloop]
  simp only [okBind]
  rw [if_neg (by omega : ¬ 1 < catData.length)]
  simp only [okBind]
  rw [if_neg (by omega : ¬ 2 < catData.length)]
  simp only [okBind]
  rw [if_neg (by omega : ¬ 3 < catData.length)]
  simp only [okBind]

/-! ## A null level-0 categorical value aborts the converter -/

theorem buildLegend_null_error (palette : String → String) :
    ∀ l : List CV, CV.null ∈ l → buildLegend palette l = .error () := by
  intro l
  induction l with
  | nil => intro h; cases h
  | cons v rest ih =>
      intro h
      cases hv : cvToStringE v with
      | error e =>
          cases e
          simp [buildLegend, hv]
      | ok s =>
          have hvnull : v ≠ CV.null := by
            intro he
            subst he
            simp [cvToStringE] at hv
          have hrest : CV.null ∈ rest := by
            rcases List.mem_cons.1 h with he | h2
            · exact absurd he.symm hvnull
            · exact h2
          simp [buildLegend, hv, ih hrest]

theorem converterCore_null_error {cd : CatData}
    (h0 : CV.null ∈ (cd.categories.getD 0 default).values)
    (palette : String → String) (rs : RootSettings) :
    converterCore cd palette rs = .error () := by
  have hleg : buildLegend palette
      (filterDistinct (cd.categories.getD 0 default).values) = .error () :=
    buildLegend_null_error palette _ (mem_filterDistinct.2 h0)
  cases hagg : calAggregate cd "none" (localTotalOf cd) with
  | error e =>
      cases e
      simp only [converterCore, hagg, errBind]
  | ok v =>
      simp only [converterCore, hagg, okBind]
      rw [hleg]
      rfl

theorem converter_null_error {cats : List CatCol} {vals : List MeasCol}
    (hc : cats ≠ []) (hv : vals ≠ [])
    (h0 : CV.null ∈ (cats.getD 0 default).values)
    (palette : String → String) (rs : RootSettings) :
    converter ⟨some cats, some vals⟩ palette rs = .error () := by
  rw [show converter ⟨some cats, some vals⟩ palette rs
      = (if 0 < cats.length ∧ 0 < vals.length then do
          let r ← converterCore ⟨cats, vals⟩ palette rs
          Except.ok (⟨r.1.nodes, r.1.links⟩ : JourneyData)
        else .ok getDefaultData) from rfl]
  rw [if_pos ⟨List.length_pos.2 hc, List.length_pos.2 hv⟩]
  rw [@converterCore_null_error ⟨cats, vals⟩ h0 palette rs]
  rfl

theorem finalErrorMessage_categoryNull {cats : List CatCol}
    {vals : List MeasCol} (hc : cats ≠ [])
    (h0 : CV.null ∈ (cats.getD 0 default).values)
    (hm : ∀ m ∈ vals, ∀ x ∈ m.values, x ≠ MV.null) :
    finalErrorMessage ⟨some cats, some vals⟩
      = some errorMessageCategoryNull := by
  have hanyc : cats.any (fun c => c.values.any (fun v => v = CV.null))
      = true := by
    rw [List.any_eq_true]
    refine ⟨cats.getD 0 default,
      List.getD_mem _ _ _ (List.length_pos.2 hc), ?_⟩
    simp only [List.any_eq_true, decide_eq_true_eq]
    exact ⟨CV.null, h0, rfl⟩
  have hanyv : vals.any (fun m => m.values.any (fun x => x = MV.null))
      = false := by
    rw [Bool.eq_false_iff]
    intro hq
    rw [List.any_eq_true] at hq
    obtain ⟨m, hm2, hq2⟩ := hq
    simp only [List.any_eq_true, decide_eq_true_eq] at hq2
    obtain ⟨x, hx, hxn⟩ := hq2
    exact hm m hm2 x hx hxn
  simp [finalErrorMessage, hanyc, hanyv]

/-! ## Concrete tables for the claim instances -/

/-- A deterministic host palette. -/
def palette0 : String → String := fun s => s ++ "-color"

/-- Default root settings: label from the first row of the last measure. -/
def rs0 : RootSettings := ⟨true, "Root", "First", "#000000"⟩

/-- A table whose first categorical value contains the key delimiter. -/
def catsStars : List CatCol :=
  [⟨"C1", [CV.str "a***b", CV.str "x"]⟩, ⟨"C2", [CV.str "c", CV.str "y"]⟩]

def valsStars : List MeasCol := [⟨"M", false, [MV.num 5, MV.num 3]⟩]

def dvStars : Categorical := ⟨some catsStars, some valsStars⟩

def outStars : JourneyData :=
  match converter dvStars palette0 rs0 with
  | .ok d => d
  | .error _ => getDefaultData

/-- A table whose measure sums to zero, so every level-0 parent sum is 0. -/
def dvZero : Categorical :=
  ⟨some [⟨"Cat", [CV.str "A", CV.str "B"]⟩],
   some [⟨"M", false, [MV.num 5, MV.num (-5)]⟩]⟩

def outZero : JourneyData :=
  match converter dvZero palette0 rs0 with
  | .ok d => d
  | .error _ => getDefaultData

/-- A table where the value "A" matches rows 0 and 1 and "B" matches
row 2. -/
def dvPos : Categorical :=
  ⟨some [⟨"Cat", [CV.str "A", CV.str "A", CV.str "B"]⟩],
   some [⟨"M", false, [MV.num 1, MV.num 1, MV.num 1]⟩]⟩

def outPos : JourneyData :=
  match converter dvPos palette0 rs0 with
  | .ok d => d
  | .error _ => getDefaultData

/-- A single category group covering two rows, with two flow-stage
measures. -/
def dvTwoRows : Categorical :=
  ⟨some [⟨"Cat", [CV.str "A", CV.str "A"]⟩],
   some [⟨"M1", false, [MV.num 100, MV.num 50]⟩,
         ⟨"M2", false, [MV.num 40, MV.num 20]⟩]⟩

def outTwoRows : JourneyData :=
  match converter dvTwoRows palette0 rs0 with
  | .ok d => d
  | .error _ => getDefaultData

/-- A group containing one non-numeric measure value next to a numeric 5. -/
def cdNaN : CatData :=
  ⟨[⟨"Cat", [CV.str "A", CV.str "A"]⟩],
   [⟨"M", false, [MV.nonnum "abc", MV.num 5]⟩]⟩

def outNaN : JourneyData :=
  match converter ⟨some cdNaN.categories, some cdNaN.values⟩ palette0 rs0 with
  | .ok d => d
  | .error _ => getDefaultData

/-- A categorical column with a null at row 1 of 3. -/
def catsNull : List CatCol := [⟨"Cat", [CV.str "a", CV.null, CV.str "b"]⟩]

def valsNull : List MeasCol := [⟨"M", false, [MV.num 1, MV.num 2, MV.num 3]⟩]

def dvNull : Categorical := ⟨some catsNull, some valsNull⟩

/-- A plain two-group table. -/
def cdTwoGroups : CatData :=
  ⟨[⟨"Stage", [CV.str "A", CV.str "A", CV.str "B"]⟩],
   [⟨"Leads", false, [MV.num 2, MV.num 3, MV.num 4]⟩]⟩

def outTwoGroups : JourneyData :=
  match converter ⟨some cdTwoGroups.categories, some cdTwoGroups.values⟩
      palette0 rs0 with
  | .ok d => d
  | .error _ => getDefaultData

/-- A two-level table with one duplicated level-0 value. -/
def cdDeep : CatData :=
  ⟨[⟨"C1", [CV.str "A", CV.str "A"]⟩, ⟨"C2", [CV.str "x", CV.str "y"]⟩],
   [⟨"M", false, [MV.num 1, MV.num 2]⟩]⟩

def ctxDeep : Ctx := mkCtx cdDeep []

/-- A small table for the id-uniqueness instance. -/
def cdIds : CatData :=
  ⟨[⟨"Cat", [CV.str "A", CV.str "B"]⟩],
   [⟨"M", false, [MV.num 1, MV.num 2]⟩]⟩

def coreIds : St × Ctx :=
  match converterCore cdIds palette0 rs0 with
  | .ok p => p
  | .error _ => (⟨[], [], 0, 0, 0⟩, ⟨[], [], [], 0, 0, []⟩)

/-- The selection-pass instance: one deepest-named column, three nodes after
the root, two of them carrying the deepest column name. -/
def ctxSel : Ctx :=
  ⟨[⟨"Cat", [CV.str "A", CV.str "B"]⟩], [⟨"M", false, [MV.num 1, MV.num 2]⟩],
   [], 1, 2, [SelT.tok 0, SelT.tok 1, SelT.tok 2]⟩

def catSel : List CatCol := [⟨"Cat", [CV.str "A", CV.str "B"]⟩]

def nodeSel (i : Nat) (pr : String) : Node :=
  ⟨i, pr, CV.str pr, 1, JVal.num 1, some 1, pr, none, SelT.anil⟩

def stSel : St :=
  ⟨[nodeSel 0 "Root", nodeSel 1 "Cat", nodeSel 2 "Other", nodeSel 3 "Cat"],
   [], 4, 10000000, 0⟩

/-- The two-stage chain instance of Scenario C. -/
def ctxChain : Ctx :=
  ⟨[⟨"Cat", [CV.str "X"]⟩],
   [⟨"M1", false, [MV.num 100]⟩, ⟨"M2", false, [MV.num 40]⟩],
   [], 2, 1, []⟩

def stChain : St := ⟨[], [], 2, 10000000, 0⟩

def stChainOut : St :=
  match calNodesNLinks ctxChain [] "X" 1 1 (some 100) stChain with
  | .ok s => s
  | .error _ => ⟨[], [], 0, 0, 0⟩

/-! ## The claim-level node laws -/

/-- The root node carries the all-rows sum of the primary measure. -/
def RootAgg (cd : CatData) (n : Node) : Prop :=
  n.nid = 0 → n.numberOfLeads = JVal.ofJNum (specAggAll cd (rowsOf cd))

/-- A hierarchy node carries the component-wise matching sum of its key. -/
def HierAgg (cd : CatData) (n : Node) : Prop :=
  1 ≤ n.nid → n.nid ≤ 10000000 →
  ∃ comps : List String, comps ≠ [] ∧
    comps.length ≤ cd.categories.length ∧ (∀ c ∈ comps, noStar c) ∧
    n.description = joinStars comps ∧
    n.numberOfLeads = JVal.ofJNum (specAgg cd comps (rowsOf cd))

/-- The root node carries percentage exactly 1. -/
def RootPct (n : Node) : Prop := n.nid = 0 → n.percentage = some 1

/-- A hierarchy node's percentage is its own aggregate over the aggregate of
the node its incoming link comes from; with both aggregates numeric and the
parent's non-zero, that is the exact rational quotient. -/
def HierPct (D : JourneyData) (n : Node) : Prop :=
  1 ≤ n.nid → n.nid ≤ 10000000 →
  ∃ p ∈ D.nodes, ∃ l ∈ D.links, l.source = p.nid ∧ l.target = n.nid ∧
    n.percentage = jdivQ n.numberOfLeads.toJNum p.numberOfLeads.toJNum ∧
    (∀ a b : Int, n.numberOfLeads.toJNum = some a →
      p.numberOfLeads.toJNum = some b → b ≠ 0 →
      n.percentage = some ((a : ℚ) / (b : ℚ)))

/-- A hierarchy node whose key matches a row with a non-numeric primary
measure value aggregates to NaN, not to the sum of the numeric values. -/
def HierNan (cd : CatData) (n : Node) : Prop :=
  1 ≤ n.nid → n.nid ≤ 10000000 →
  ∃ comps : List String, comps ≠ [] ∧ n.description = joinStars comps ∧
    n.numberOfLeads = JVal.ofJNum (specAgg cd comps (rowsOf cd)) ∧
    (∀ r, r < rowsOf cd → rowMatches cd comps r = true →
      parseM0D cd r = none → n.numberOfLeads = JVal.nan)

/-- Every node id is the root id 0, a hierarchy id below the generator, or a
measure-stage id beyond 10000000. -/
def IdShape (st : St) (n : Node) : Prop :=
  n.nid = 0 ∨ (1 ≤ n.nid ∧ n.nid < st.idGen) ∨ 10000000 < n.nid

/-! ## The claims -/

/-- C1: aggregation correctness, in the range where it holds.  Under the
build preconditions (delimiter-free non-empty string values, equal column
lengths) every hierarchy node of a successful conversion aggregates the
primary measure over exactly the rows matching its key component-wise, and
the root node aggregates all rows.  The frozen claim additionally asserts
this for values containing `'***'`, which the counterexample refutes. -/
theorem claim_C1 {cd : CatData} (hy : Hyps cd) (palette : String → String)
    (rs : RootSettings) {D : JourneyData}
    (hok : converter ⟨some cd.categories, some cd.values⟩ palette rs
      = .ok D) :
    ∀ n ∈ D.nodes, RootAgg cd n ∧ HierAgg cd n := by
  obtain ⟨st, hskel, hlinks, hinv⟩ := converter_facts hy palette rs hok
  intro n hn
  obtain ⟨m, hm, hms⟩ := skel_mem_transfer hskel hn
  obtain ⟨hnid, -, -, -, hleads, -, hdesc, -⟩ := skel_eq_fields hms
  constructor
  · intro h0
    rcases hinv.facts m hm with hf | hf | hf
    · rw [← hleads]
      exact hf.2.2.1
    · have hx := hf.1
      rw [hnid, h0] at hx
      exact absurd hx (by decide)
    · have hx := hf.1
      rw [hnid, h0] at hx
      exact absurd hx (by decide)
  · intro h1 h2
    rcases hinv.facts m hm with hf | hf | hf
    · have hx := hf.1
      rw [hnid] at hx
      exfalso
      omega
    · obtain ⟨-, -, comps, hcne, hclen2, hstar, hdesc2, -, -, hleads2, -⟩ := hf
      refine ⟨comps, hcne, hclen2, hstar, ?_, ?_⟩
      · rw [← hdesc]
        exact hdesc2
      · rw [← hleads]
        exact hleads2
    · have hx := hf.1
      rw [hnid] at hx
      exfalso
      omega

/-- Witness for C1: a two-group single-level table. -/
theorem claim_C1_witness :
    Hyps cdTwoGroups ∧
    converter ⟨some cdTwoGroups.categories, some cdTwoGroups.values⟩ palette0
      rs0 = .ok outTwoGroups ∧
    ∀ n ∈ outTwoGroups.nodes, RootAgg cdTwoGroups n ∧ HierAgg cdTwoGroups n :=
  ⟨by decide, rfl, claim_C1 (by decide) palette0 rs0 rfl⟩

/-- C1 counterexample: with the delimiter inside a categorical value the
node keyed "a***b" aggregates 0, while the component-wise matching sum over
the rows whose level-0 value is "a***b" is 5 — the split key ["a","b"]
matches no row, so keys are not compared by structural equality of the
component sequence. -/
theorem claim_C1_counterexample :
    converter dvStars palette0 rs0 = .ok outStars ∧
    (outStars.nodes.getD 1 default).description = "a***b" ∧
    (outStars.nodes.getD 1 default).numberOfLeads = JVal.num 0 ∧
    specAgg ⟨catsStars, valsStars⟩ ["a***b"] (rowsOf ⟨catsStars, valsStars⟩)
      = some 5 :=
  ⟨rfl, by decide, by decide, by decide⟩

/-- C3: the source has no division-by-zero guard.  `jdivQ`, the percentage
divider, returns NaN (modelled `none`) whenever the parent aggregate is 0 —
never 0 — and at a zero-total table both level-0 node percentages end NaN
while the root keeps 1. -/
theorem claim_C3 :
    (∀ x : JNum, jdivQ x (some 0) = none) ∧
    converter dvZero palette0 rs0 = .ok outZero ∧
    outZero.nodes.map Node.percentage = [some 1, none, none] :=
  ⟨fun x => jdivQ_zero x, rfl, by decide⟩

/-- C3 counterexample: at the zero-total table the level-0 node's
percentage is NaN, not the 0 the claim demands. -/
theorem claim_C3_counterexample :
    converter dvZero palette0 rs0 = .ok outZero ∧
    (outZero.nodes.getD 1 default).nid = 1 ∧
    (outZero.nodes.getD 1 default).percentage = none ∧
    ¬ (outZero.nodes.getD 1 default).percentage = some 0 :=
  ⟨rfl, by decide, by decide, by decide⟩

/-- C6: a missing bag short-circuits the build: the converter returns the
default empty node and link lists untouched, and the update path leaves one
of the four fixed advisory texts in the message element. -/
theorem claim_C6 (dv : Categorical) (palette : String → String)
    (rs : RootSettings) (h : dv.categories = none ∨ dv.values = none) :
    converter dv palette rs = .ok getDefaultData ∧
    getDefaultData.nodes = [] ∧ getDefaultData.links = [] ∧
    ∃ m, finalErrorMessage dv = some m ∧
      (m = errorMessageCategory ∨ m = errorMessageMeasure ∨
       m = errorMessageCategoryNull ∨ m = errorMessageMeasureNull) := by
  obtain ⟨oc, ov⟩ := dv
  rcases h with h | h
  · have h2 : oc = none := h
    subst h2
    refine ⟨by cases ov <;> rfl, rfl, rfl, ?_⟩
    cases ov with
    | none => exact ⟨errorMessageMeasure, rfl, Or.inr (Or.inl rfl)⟩
    | some vals =>
        by_cases hv : vals.any
            (fun m => m.values.any (fun x => x = MV.null)) = true
        · refine ⟨errorMessageMeasureNull, ?_, Or.inr (Or.inr (Or.inr rfl))⟩
          simp [finalErrorMessage, hv]
        · refine ⟨errorMessageCategory, ?_, Or.inl rfl⟩
          simp only [Bool.not_eq_true] at hv
          simp [finalErrorMessage, hv]
  · have h2 : ov = none := h
    subst h2
    refine ⟨by cases oc <;> rfl, rfl, rfl, ?_⟩
    exact ⟨errorMessageMeasure, by cases oc <;> rfl, Or.inr (Or.inl rfl)⟩

/-- Witness for C6: both bags missing. -/
theorem claim_C6_witness :
    ((⟨none, none⟩ : Categorical).categories = none ∨
      (⟨none, none⟩ : Categorical).values = none) ∧
    (converter ⟨none, none⟩ palette0 rs0 = .ok getDefaultData ∧
     getDefaultData.nodes = [] ∧ getDefaultData.links = [] ∧
     ∃ m, finalErrorMessage ⟨none, none⟩ = some m ∧
       (m = errorMessageCategory ∨ m = errorMessageMeasure ∨
        m = errorMessageCategoryNull ∨ m = errorMessageMeasureNull)) :=
  ⟨Or.inl rfl, claim_C6 ⟨none, none⟩ palette0 rs0 (Or.inl rfl)⟩

/-- C8: a null categorical value does not produce a warn-but-continue
build.  With a null anywhere in the level-0 column the converter throws
(the legend's `toString` on the null distinct value), no graph data is
produced, and the message element reads the category-null advisory. -/
theorem claim_C8 {cats : List CatCol} {vals : List MeasCol}
    (hc : cats ≠ []) (hv : vals ≠ [])
    (h0 : CV.null ∈ (cats.getD 0 default).values)
    (hm : ∀ m ∈ vals, ∀ x ∈ m.values, x ≠ MV.null)
    (palette : String → String) (rs : RootSettings) :
    converter ⟨some cats, some vals⟩ palette rs = .error () ∧
    finalErrorMessage ⟨some cats, some vals⟩
      = some errorMessageCategoryNull :=
  ⟨converter_null_error hc hv h0 palette rs,
   finalErrorMessage_categoryNull hc h0 hm⟩

/-- Witness for C8 at the three-row table with a null at row 1. -/
theorem claim_C8_witness :
    catsNull ≠ [] ∧ valsNull ≠ [] ∧
    CV.null ∈ (catsNull.getD 0 default).values ∧
    (∀ m ∈ valsNull, ∀ x ∈ m.values, x ≠ MV.null) ∧
    (converter ⟨some catsNull, some valsNull⟩ palette0 rs0 = .error () ∧
     finalErrorMessage ⟨some catsNull, some valsNull⟩
       = some errorMessageCategoryNull) :=
  ⟨by decide, by decide, by decide, by decide,
   claim_C8 (by decide) (by decide) (by decide) (by decide) palette0 rs0⟩

/-- C8 counterexample: the build does not complete on Scenario D — the
converter returns an error instead of a node for the null group, refuting
the warn-but-continue sentence. -/
theorem claim_C8_counterexample :
    converter dvNull palette0 rs0 = .error () ∧
    finalErrorMessage dvNull = some errorMessageCategoryNull :=
  ⟨rfl, by decide⟩

/-- C2: the percentage law.  Under the build preconditions, in a successful
conversion the root node's percentage is exactly 1, and every hierarchy
node's percentage is its own aggregate divided by the aggregate of the node
its incoming link comes from — exactly the rational quotient whenever both
aggregates are numeric and the parent's is non-zero. -/
theorem claim_C2 {cd : CatData} (hy : Hyps cd) (palette : String → String)
    (rs : RootSettings) {D : JourneyData}
    (hok : converter ⟨some cd.categories, some cd.values⟩ palette rs
      = .ok D) :
    ∀ n ∈ D.nodes, RootPct n ∧ HierPct D n := by
  obtain ⟨st, hskel, hlinks, hinv⟩ := converter_facts hy palette rs hok
  intro n hn
  obtain ⟨m, hm, hms⟩ := skel_mem_transfer hskel hn
  obtain ⟨hnid, -, -, -, hleads, hpct, -, -⟩ := skel_eq_fields hms
  constructor
  · intro h0
    rcases hinv.facts m hm with hf | hf | hf
    · rw [← hpct]
      exact hf.2.2.2
    · have hx := hf.1
      rw [hnid, h0] at hx
      exact absurd hx (by decide)
    · have hx := hf.1
      rw [hnid, h0] at hx
      exact absurd hx (by decide)
  · intro h1 h2
    rcases hinv.facts m hm with hf | hf | hf
    · have hx := hf.1
      rw [hnid] at hx
      exfalso
      omega
    · obtain ⟨-, -, comps, -, -, -, -, -, -, hleads2, p, hp, l, hl, hlsrc,
        hltgt, hpcteq⟩ := hf
      obtain ⟨p2, hp2, hp2s⟩ := skel_mem_transfer hskel.symm hp
      obtain ⟨hpnid, -, -, -, hpleads, -, -, -⟩ := skel_eq_fields hp2s
      refine ⟨p2, hp2, l, ?_, ?_, ?_, ?_, ?_⟩
      · rw [hlinks]
        exact hl
      · rw [hpnid]
        exact hlsrc
      · rw [hltgt, hnid]
      · rw [← hpct, ← hleads, hpleads, hpcteq, hleads2, toJNum_ofJNum]
      · intro a b hna hpb hb
        rw [← hpct, hpcteq]
        have hsa : specAgg cd comps (rowsOf cd) = some a := by
          rw [← toJNum_ofJNum (specAgg cd comps (rowsOf cd)), ← hleads2,
            hleads]
          exact hna
        have hpb2 : p.numberOfLeads.toJNum = some b := by
          rw [← hpleads]
          exact hpb
        rw [hsa, hpb2]
        simp [jdivQ, hb]
    · have hx := hf.1
      rw [hnid] at hx
      exfalso
      omega

/-- Witness for C2: the two-group single-level table. -/
theorem claim_C2_witness :
    Hyps cdTwoGroups ∧
    converter ⟨some cdTwoGroups.categories, some cdTwoGroups.values⟩ palette0
      rs0 = .ok outTwoGroups ∧
    ∀ n ∈ outTwoGroups.nodes, RootPct n ∧ HierPct outTwoGroups n :=
  ⟨by decide, rfl,
   @claim_C2 cdTwoGroups (by decide) palette0 rs0 outTwoGroups rfl⟩

/-- C7: a non-numeric primary measure value does not coerce to 0 during
aggregation — it turns every sum it participates in into NaN.  Every
hierarchy node still aggregates the spec-side matching sum, and whenever
some matching row has a non-parseable primary measure cell that aggregate
is NaN, not the sum of the numeric cells. -/
theorem claim_C7 {cd : CatData} (hy : Hyps cd) (palette : String → String)
    (rs : RootSettings) {D : JourneyData}
    (hok : converter ⟨some cd.categories, some cd.values⟩ palette rs
      = .ok D) :
    ∀ n ∈ D.nodes, HierNan cd n := by
  obtain ⟨st, hskel, hlinks, hinv⟩ := converter_facts hy palette rs hok
  intro n hn
  obtain ⟨m, hm, hms⟩ := skel_mem_transfer hskel hn
  obtain ⟨hnid, -, -, -, hleads, -, hdesc, -⟩ := skel_eq_fields hms
  intro h1 h2
  rcases hinv.facts m hm with hf | hf | hf
  · have hx := hf.1
    rw [hnid] at hx
    exfalso
    omega
  · obtain ⟨-, -, comps, hcne, -, -, hdesc2, -, -, hleads2, -⟩ := hf
    refine ⟨comps, hcne, ?_, ?_, ?_⟩
    · rw [← hdesc]
      exact hdesc2
    · rw [← hleads]
      exact hleads2
    · intro r hr hmatch hparse
      have hnone : specAgg cd comps (rowsOf cd) = none := by
        unfold specAgg
        exact specAgg_absorbs_nan cd comps (List.range (rowsOf cd)) (some 0)
          ⟨r, List.mem_range.2 hr, hmatch, hparse⟩
      rw [← hleads, hleads2, hnone]
      rfl
  · have hx := hf.1
    rw [hnid] at hx
    exfalso
    omega

/-- Witness for C7 at the table with a non-numeric cell in group "A". -/
theorem claim_C7_witness :
    Hyps cdNaN ∧
    converter ⟨some cdNaN.categories, some cdNaN.values⟩ palette0 rs0
      = .ok outNaN ∧
    ∀ n ∈ outNaN.nodes, HierNan cdNaN n :=
  ⟨by decide, rfl, claim_C7 (by decide) palette0 rs0 rfl⟩

/-- C7 counterexample: the group "A" contains a non-parseable cell and a
numeric 5; the claim demands the node aggregate 5, but both the root and
the group node come out NaN. -/
theorem claim_C7_counterexample :
    converter ⟨some cdNaN.categories, some cdNaN.values⟩ palette0 rs0
      = .ok outNaN ∧
    parseM0D cdNaN 0 = none ∧ parseM0D cdNaN 1 = some 5 ∧
    outNaN.nodes.map Node.numberOfLeads = [JVal.nan, JVal.nan] :=
  ⟨rfl, by decide, by decide, by decide⟩

/-- C4: what the selection pass actually computes.  The pass only rewrites
selection arrays (see the skeleton lemmas), and in the single-column
single-measure shape it is the positional token pass: scanning the nodes
after the root, the j-th node carrying the deepest column's display name
receives the j-th row token — regardless of which rows its key matches —
and the root keeps the full token array it was seeded with.  The frozen
any-depth union claim is refuted by the counterexample. -/
theorem claim_C4 (ctx : Ctx) (catData : List CatCol)
    (hm : ctx.measureData.length = 1 ∨ ctx.measureDataLengthCount ≤ 1)
    (hc : catData.length ≤ 1) (st : St) (r : Node) (rest : List Node)
    (hn : st.nodes = r :: rest) :
    addSelection ctx catData st = .ok { st with nodes :=
      (r :: selPass (catData.getD (catData.length - 1) default).displayName
        ctx.selection 0 rest) } :=
  addSelection_single ctx catData hm hc st r rest hn

/-- Witness for C4: four nodes, two of them at the deepest column name. -/
theorem claim_C4_witness :
    (ctxSel.measureData.length = 1 ∨ ctxSel.measureDataLengthCount ≤ 1) ∧
    catSel.length ≤ 1 ∧
    stSel.nodes = nodeSel 0 "Root"
      :: [nodeSel 1 "Cat", nodeSel 2 "Other", nodeSel 3 "Cat"] ∧
    addSelection ctxSel catSel stSel = .ok { stSel with nodes :=
      (nodeSel 0 "Root" :: selPass
        (catSel.getD (catSel.length - 1) default).displayName
        ctxSel.selection 0
        [nodeSel 1 "Cat", nodeSel 2 "Other", nodeSel 3 "Cat"]) } :=
  ⟨Or.inl rfl, by decide, rfl,
   claim_C4 ctxSel catSel (Or.inl rfl) (by decide) stSel _ _ rfl⟩

/-- C4 counterexample: "A" matches rows 0 and 1 and "B" matches row 2, yet
the pass hands "A" only the row-0 token and "B" the row-1 token; the
deepest-node selection sets are not the matching row-token sets. -/
theorem claim_C4_counterexample :
    converter dvPos palette0 rs0 = .ok outPos ∧
    outPos.nodes.map Node.name = [CV.str "Root", CV.str "A", CV.str "B"] ∧
    outPos.nodes.map Node.selectionId
      = [selArr [SelT.tok 0, SelT.tok 1, SelT.tok 2],
         selArr [SelT.tok 0], selArr [SelT.tok 1]] :=
  ⟨rfl, by decide, by decide⟩

/-- C5: the stage chain a single matching row produces.  At the deepest
level with two flow-stage measures, one row spawns one node per measure:
the first stage node links from the category node with percentage exactly
1, the second links from the first and divides its own value by the
previous column's value — the exact quotient when that value is non-zero.
The frozen per-row-group claim is refuted by the counterexample. -/
theorem claim_C5 (lg : List LegendPt) (sel : List SelT) (nm1 nm2 : String)
    (a b : Int) (pid g : Nat) (psum : JNum) (ns : List Node) (ls : List Link)
    (ha : a ≠ 0) :
    calNodesNLinks
      { cats := [⟨"Cat", [CV.str "X"]⟩],
        measureData := [⟨nm1, false, [MV.num a]⟩, ⟨nm2, false, [MV.num b]⟩],
        legend := lg, measureDataLengthCount := 2, totalValues := 1,
        selection := sel }
      [] "X" 1 pid psum
      { nodes := ns, links := ls, idGen := g, measureIdGen := 10000000,
        selectionArrayIndex := 0 }
    = .ok
      { nodes := ns ++
          [{ nid := 10000001, program := nm1, name := CV.str nm1,
             group := 2, numberOfLeads := JVal.num a, percentage := some 1,
             description := nm1, color := calNodesNLinksColor lg "X",
             selectionId := selGet sel 0 }] ++
          [{ nid := 10000002, program := nm2, name := CV.str nm2,
             group := 2, numberOfLeads := JVal.num b,
             percentage := jdivQ (some b) (some a),
             description := nm2, color := calNodesNLinksColor lg "X",
             selectionId := selGet sel 0 }],
        links := ls ++
          [{ source := pid, target := 10000001, value := JVal.num a,
             activity := "" }] ++
          [{ source := 10000001, target := 10000002, value := JVal.num b,
             activity := "" }],
        idGen := g, measureIdGen := 10000002, selectionArrayIndex := 1 }
    ∧ jdivQ (some b) (some a) = some ((b : ℚ) / (a : ℚ)) := by
  constructor
  · rfl
  · simp [jdivQ, ha]

/-- Witness for C5 at Scenario C's measures 100 and 40. -/
theorem claim_C5_witness :
    (100 : Int) ≠ 0 ∧
    (calNodesNLinks ctxChain [] "X" 1 1 (some 100) stChain
        = .ok stChainOut ∧
     jdivQ (some 40) (some 100) = some ((40 : ℚ) / (100 : ℚ))) :=
  ⟨by decide, claim_C5 [] [] "M1" "M2" 100 40 1 2 (some 100) [] []
    (by decide)⟩

/-- C5 counterexample: one category group covering two rows with two
flow-stage measures produces four stage nodes — one chain per row — not the
one chain per row group the claim demands. -/
theorem claim_C5_counterexample :
    converter dvTwoRows palette0 rs0 = .ok outTwoRows ∧
    outTwoRows.nodes.map Node.nid
      = [0, 1, 10000001, 10000002, 10000003, 10000004] ∧
    outTwoRows.nodes.map Node.group = [0, 1, 2, 2, 2, 2] :=
  ⟨rfl, by decide, by decide⟩

/-- C9: children are emitted in first-seen row order.  The JS
`filter(getDistinctElements)` idiom is first-seen deduplication; at the
root call the level-0 column is deduplicated as-is, and under the build
preconditions every keyed call deduplicates the matching rows' values at
the current level, in row order — never sorted. -/
theorem claim_C9 :
    (∀ l : List CV, filterDistinct l = firstSeenDedup l) ∧
    (∀ ctx : Ctx, uniqueElems ctx "" 0
      = .ok (firstSeenDedup (ctx.cats.getD 0 default).values)) ∧
    (∀ cd : CatData, Hyps cd → ∀ ctx : Ctx, ctx.cd = cd →
      ctx.totalValues = rowsOf cd →
      ∀ (comps : List String) (level : Nat), comps ≠ [] →
      comps.length = level → (∀ c ∈ comps, noStar c ∧ c ≠ "") →
      level ≤ cd.categories.length →
      uniqueElems ctx (joinStars comps) level
        = .ok (firstSeenDedup (specFiltered cd comps level
            (List.range (rowsOf cd))))) := by
  refine ⟨filterDistinct_eq_firstSeenDedup, ?_, ?_⟩
  · intro ctx
    rw [uniqueElems_root, filterDistinct_eq_firstSeenDedup]
  · intro cd hy ctx hcd htv comps level hc hclen hprops hlev
    rw [uniqueElems_key hy hcd htv comps level hc hclen hprops hlev,
      filterDistinct_eq_firstSeenDedup]

/-- Witness for C9 at the two-level table, keyed call at key ["A"]. -/
theorem claim_C9_witness :
    Hyps cdDeep ∧ ctxDeep.cd = cdDeep ∧
    ctxDeep.totalValues = rowsOf cdDeep ∧
    (["A"] : List String) ≠ [] ∧
    (["A"] : List String).length = 1 ∧
    (∀ c ∈ (["A"] : List String), noStar c ∧ c ≠ "") ∧
    1 ≤ cdDeep.categories.length ∧
    uniqueElems ctxDeep (joinStars ["A"]) 1
      = .ok (firstSeenDedup (specFiltered cdDeep ["A"] 1
          (List.range (rowsOf cdDeep)))) :=
  ⟨by decide, rfl, rfl, by decide, by decide, by decide, by decide,
   claim_C9.2.2 cdDeep (by decide) ctxDeep rfl rfl ["A"] 1 (by decide)
     (by decide) (by decide) (by decide)⟩

/-- C10: id uniqueness.  In any successful build whose hierarchy id
generator stayed within its 10000000-wide band, node ids are pairwise
distinct, and every id is the root 0, a hierarchy id in [1, idGen) (the
generator counts consecutively from 1), or a measure-stage id beyond
10000000. -/
theorem claim_C10 {cd : CatData} (hy : Hyps cd) (palette : String → String)
    (rs : RootSettings) {stF : St} {ctx : Ctx}
    (hok : converterCore cd palette rs = .ok (stF, ctx))
    (hsmall : stF.idGen ≤ 10000001) :
    (stF.nodes.map Node.nid).Nodup ∧ ∀ n ∈ stF.nodes, IdShape stF n := by
  obtain ⟨st, hskel, hlinks, hidg, hmid, hinv⟩ :=
    converter_core_facts hy palette rs hok
  constructor
  · rw [map_nid_of_skel hskel]
    refine hinv.nodup ?_
    rw [← hidg]
    exact hsmall
  · intro n hn
    obtain ⟨m, hm, hms⟩ := skel_mem_transfer hskel hn
    have hnid := (skel_eq_fields hms).1
    rcases hinv.facts m hm with hf | hf | hf
    · left
      rw [← hnid]
      exact hf.1
    · right
      left
      refine ⟨?_, ?_⟩
      · rw [← hnid]
        exact hf.1
      · rw [← hnid, hidg]
        exact hf.2.1
    · right
      right
      rw [← hnid]
      exact hf.1

/-- Witness for C10 at the two-group table. -/
theorem claim_C10_witness :
    Hyps cdIds ∧
    converterCore cdIds palette0 rs0 = .ok (coreIds.1, coreIds.2) ∧
    coreIds.1.idGen ≤ 10000001 ∧
    ((coreIds.1.nodes.map Node.nid).Nodup ∧
     ∀ n ∈ coreIds.1.nodes, IdShape coreIds.1 n) :=
  ⟨by decide, rfl, by decide,
   @claim_C10 cdIds (by decide) palette0 rs0 coreIds.1 coreIds.2 rfl
     (by decide)⟩

end JourneyChart
